import Mathlib

/-!
# Verification of the IMDb list-scraper specification

A shallow embedding, in Lean 4, of the scraping pipeline implemented in
`app.py`: the regex-based field parsers, the HTML container locator, the
per-container field extractor, and the dataset assembly
(title filter, de-duplication, row numbering).

Modelling conventions:
* Python strings are `List Char` (`Str`).  Character classes follow the
  ASCII behaviour of Python's `re` module (`\d`, `\s`, `\w`), which is all
  the scraped inputs exercise.
* Each `re.search` call of the source is embedded as a dedicated scanner:
  a `matchHere` function that decides a match attempt at one position
  (reproducing the greedy/backtracking behaviour of that concrete pattern)
  plus a left-to-right scan (`reSearch`), which yields Python's leftmost
  match.  The scanner carries the previous character so that word
  boundaries (`\b`) can be decided.
* Python floats are modelled as exact rationals.  Every float the code
  produces is parsed from a short decimal numeral and only compared for
  equality, where the binary rounding is injective, so this is
  observation-preserving.
* The HTML tree is a nested inductive.  BeautifulSoup's `Tag.__eq__` and
  `Tag.__hash__` are structural (a tag equals/hashes like its rendered
  markup), so the source's identity keys (`str(hash(el))`, `p not in
  parents`) are embedded as the node value itself; hash collisions are
  idealised away.
-/

abbrev Str := List Char

/-- Python `\d` (ASCII). -/
def pyDigit (c : Char) : Bool := 48 ≤ c.toNat && c.toNat ≤ 57

/-- Python `\s` (ASCII part: space, \t, \n, \r, \x0b, \x0c). -/
def pyIsSpace (c : Char) : Bool :=
  c.toNat = 32 || c.toNat = 9 || c.toNat = 10 || c.toNat = 13 || c.toNat = 11 || c.toNat = 12

/-- Python `\w` (ASCII part: letters, digits, underscore). -/
def pyWord (c : Char) : Bool :=
  (65 ≤ c.toNat && c.toNat ≤ 90) || (97 ≤ c.toNat && c.toNat ≤ 122) ||
  (48 ≤ c.toNat && c.toNat ≤ 57) || c.toNat = 95

/-- `str.lower` on one character (ASCII). -/
def pyLower (c : Char) : Char :=
  if 65 ≤ c.toNat ∧ c.toNat ≤ 90 then Char.ofNat (c.toNat + 32) else c

/-- `str.upper` on one character (ASCII). -/
def pyUpper (c : Char) : Char :=
  if 97 ≤ c.toNat ∧ c.toNat ≤ 122 then Char.ofNat (c.toNat - 32) else c

def pyLowerStr (s : Str) : Str := s.map pyLower

def pyUpperStr (s : Str) : Str := s.map pyUpper

/-- `str.strip()`: drop whitespace at both ends. -/
def pyStrip (s : Str) : Str :=
  ((s.dropWhile pyIsSpace).reverse.dropWhile pyIsSpace).reverse

/-- Value of a digit string, as `int()` computes it. -/
def digitsToNat (ds : Str) : Nat := ds.foldl (fun a c => a * 10 + (c.toNat - 48)) 0

def chars (s : String) : Str := s.data

/-- A word boundary against the character left of the scan position, for a
match that starts with a word character (`none` = start of string). -/
def nonWordOpt : Option Char → Bool
  | none => true
  | some c => !pyWord c

/-- Left-to-right scan: try the matcher at every position (Python
`re.search` leftmost semantics); `prev` is the character before the
current position. -/
def scanStr (m : Option Char → Str → Option α) : Option Char → Str → Option α
  | prev, s =>
    match m prev s with
    | some r => some r
    | none =>
      match s with
      | [] => none
      | c :: rest => scanStr m (some c) rest

def reSearch (m : Option Char → Str → Option α) (s : Str) : Option α :=
  scanStr m none s

/-- Case-insensitive literal test: `lit` (given lowercase) is a prefix of
`s` up to `str.lower`. -/
def ciHasLit : Str → Str → Bool
  | _, [] => true
  | [], _ :: _ => false
  | c :: s, d :: lit => pyLower c = d && ciHasLit s lit

/-- `(\d+)\s*h` — the hours component scanner of `_runtime_to_minutes`
(case-sensitive).  Only the maximal digit/space runs can succeed, so no
backtracking is needed. -/
def matchHHere (_ : Option Char) (s : Str) : Option Nat :=
  let ds := s.takeWhile pyDigit
  if ds.isEmpty then none
  else
    match (s.drop ds.length).dropWhile pyIsSpace with
    | c :: _ => if c = 'h' then some (digitsToNat ds) else none
    | [] => none

/-- `(\d+)\s*min` — the minutes component scanner of
`_runtime_to_minutes` (case-sensitive). -/
def matchMinHere (_ : Option Char) (s : Str) : Option Nat :=
  let ds := s.takeWhile pyDigit
  if ds.isEmpty then none
  else
    match (s.drop ds.length).dropWhile pyIsSpace with
    | 'm' :: 'i' :: 'n' :: _ => some (digitsToNat ds)
    | _ => none

/-- `\b(\d{2,3})\b` — the bare-numeral scanner (greedy: three digits
tried before two). -/
def matchBare23Here (prev : Option Char) (s : Str) : Option Str :=
  if nonWordOpt prev then
    match s with
    | a :: b :: c :: rest =>
      if pyDigit a ∧ pyDigit b ∧ pyDigit c ∧ nonWordOpt rest.head? then some [a, b, c]
      else if pyDigit a ∧ pyDigit b ∧ !pyWord c then some [a, b]
      else none
    | [a, b] => if pyDigit a ∧ pyDigit b then some [a, b] else none
    | _ => none
  else none

/-- `_runtime_to_minutes`: hour and minute components extracted
independently; bare 2–3 digit fallback only when neither matched; a
computed total of 0 becomes `None`. -/
def _runtime_to_minutes (rt : Str) : Option Nat :=
  if rt.isEmpty then none
  else
    let mh := reSearch matchHHere rt
    match reSearch matchMinHere rt with
    | some m =>
      let total := mh.getD 0 * 60 + m
      if 0 < total then some total else none
    | none =>
      match mh with
      | some h => if 0 < h * 60 then some (h * 60) else none
      | none =>
        match reSearch matchBare23Here rt with
        | some g => some (digitsToNat g)
        | none => none

example : _runtime_to_minutes (chars "2h 22min") = some 142 := by decide
example : _runtime_to_minutes (chars "142 min") = some 142 := by decide
example : _runtime_to_minutes (chars "142") = some 142 := by decide
example : _runtime_to_minutes (chars "1h 30m") = some 60 := by decide
example : _runtime_to_minutes (chars "no digits") = none := by decide
example : _runtime_to_minutes (chars "1999") = none := by decide

/-- `_to_int`: strip every non-digit, parse what remains. -/
def _to_int (t : Str) : Option Nat :=
  let ds := t.filter pyDigit
  if ds.isEmpty then none else some (digitsToNat ds)

/-- `_clean_votes_text`: identical digit-stripping parse. -/
def _clean_votes_text (t : Str) : Option Nat :=
  let ds := t.filter pyDigit
  if ds.isEmpty then none else some (digitsToNat ds)

/-- A matched decimal numeral token, kept in discrete form (sign, integer
digits, fraction digits, fraction length); its rational value is taken by
`NumTok.val`.  This keeps the scanners kernel-computable. -/
structure NumTok where
  neg : Bool
  intPart : Nat
  fracPart : Nat
  fracLen : Nat
deriving DecidableEq

/-- The float value denoted by a numeral token (floats are modelled as
exact rationals). -/
def NumTok.val (t : NumTok) : Rat :=
  (if t.neg then (-1 : Rat) else 1) *
    ((t.intPart : Rat) + (t.fracPart : Rat) / (10 : Rat) ^ t.fracLen)

/-- Body of `[-+]?\d*\.?\d+` after the optional sign.  Greediness with
backtracking collapses to: a maximal digit run, optionally followed by a
dot and a second maximal digit run ("12." backtracks to "12"); with no
leading digits, a dot followed by digits. -/
def numBody (neg : Bool) (s : Str) : Option NumTok :=
  let ds := s.takeWhile pyDigit
  if ds.isEmpty then
    match s with
    | '.' :: rest =>
      let fs := rest.takeWhile pyDigit
      if fs.isEmpty then none
      else some ⟨neg, 0, digitsToNat fs, fs.length⟩
    | _ => none
  else
    match s.drop ds.length with
    | '.' :: rest =>
      let fs := rest.takeWhile pyDigit
      if fs.isEmpty then some ⟨neg, digitsToNat ds, 0, 0⟩
      else some ⟨neg, digitsToNat ds, digitsToNat fs, fs.length⟩
    | _ => some ⟨neg, digitsToNat ds, 0, 0⟩

/-- `[-+]?\d*\.?\d+` — the numeric token scanner of `_to_float`. -/
def matchNumHere (_ : Option Char) (s : Str) : Option NumTok :=
  match s with
  | [] => none
  | c :: rest =>
    if c = '+' then numBody false rest
    else if c = '-' then numBody true rest
    else numBody false s

/-- The token-level part of `_to_float`: strip, turn commas into dots,
take the first numeric token. -/
def floatTok (t : Str) : Option NumTok :=
  let s := (pyStrip t).map (fun c => if c = ',' then '.' else c)
  reSearch matchNumHere s

/-- `_to_float` = numeral-token search followed by float conversion. -/
def _to_float (t : Str) : Option Rat := (floatTok t).map NumTok.val

/-- `(\d{1,3}\+)` — the age-threshold scanner of `_extract_age` (no word
boundaries).  At a given position the digit run blocks all shorter takes,
so a match needs a run of 1–3 digits followed directly by `+`. -/
def matchPlusHere (_ : Option Char) (s : Str) : Option Str :=
  let ds := s.takeWhile pyDigit
  if 1 ≤ ds.length ∧ ds.length ≤ 3 then
    match s.drop ds.length with
    | '+' :: _ => some (ds ++ ['+'])
    | _ => none
  else none

/-- `\d{1,2}` with the certification pattern's trailing `\b` (greedy: two
digits before one). -/
def digits12Bdry : Str → Option Str
  | a :: b :: rest =>
    if pyDigit a ∧ pyDigit b ∧ nonWordOpt rest.head? then some [a, b]
    else if pyDigit a ∧ !pyWord b then some [a]
    else none
  | [a] => if pyDigit a then some [a] else none
  | [] => none

/-- Alternative `PG-?\d{1,2}` (with the trailing `\b`). -/
def altPGNum : Str → Option Str
  | p :: g :: rest =>
    if pyLower p = 'p' ∧ pyLower g = 'g' then
      match rest with
      | '-' :: rest2 => (digits12Bdry rest2).map (fun ds => p :: g :: '-' :: ds)
      | _ => (digits12Bdry rest).map (fun ds => p :: g :: ds)
    else none
  | _ => none

/-- A one-letter alternative (`G`, `R`) with the trailing `\b`. -/
def altLetter (d : Char) : Str → Option Str
  | c :: rest => if pyLower c = d ∧ nonWordOpt rest.head? then some [c] else none
  | [] => none

/-- Alternative `PG` with the trailing `\b`. -/
def altPG : Str → Option Str
  | p :: g :: rest =>
    if pyLower p = 'p' ∧ pyLower g = 'g' ∧ nonWordOpt rest.head? then some [p, g] else none
  | _ => none

/-- Alternative `NC-17` with the trailing `\b`. -/
def altNC17 : Str → Option Str
  | n :: c :: h :: o :: s :: rest =>
    if pyLower n = 'n' ∧ pyLower c = 'c' ∧ h = '-' ∧ o = '1' ∧ s = '7' ∧
        nonWordOpt rest.head? then
      some [n, c, h, o, s]
    else none
  | _ => none

/-- Alternatives `TV-?MA` and `TV-?14` (the two tail characters are given
lowercase), with the trailing `\b`. -/
def altTV (x y : Char) : Str → Option Str
  | t :: v :: rest =>
    if pyLower t = 't' ∧ pyLower v = 'v' then
      match rest with
      | '-' :: a :: b :: rest2 =>
        if pyLower a = x ∧ pyLower b = y ∧ nonWordOpt rest2.head? then
          some [t, v, '-', a, b]
        else none
      | a :: b :: rest2 =>
        if pyLower a = x ∧ pyLower b = y ∧ nonWordOpt rest2.head? then
          some [t, v, a, b]
        else none
      | _ => none
    else none
  | _ => none

/-- `\b(PG-?\d{1,2}|G|PG|R|NC-17|TV-?MA|TV-?14)\b`, case-insensitive —
the certification scanner of `_extract_age` (alternatives in source
order; each alternative checks the trailing boundary itself, matching the
regex engine's backtracking into later alternatives). -/
def matchCertHere (prev : Option Char) (s : Str) : Option Str :=
  if nonWordOpt prev then
    (altPGNum s).orElse fun _ =>
    (altLetter 'g' s).orElse fun _ =>
    (altPG s).orElse fun _ =>
    (altLetter 'r' s).orElse fun _ =>
    (altNC17 s).orElse fun _ =>
    (altTV 'm' 'a' s).orElse fun _ =>
    altTV '1' '4' s
  else none

/-- `_extract_age`: age-threshold token first, certification token
(uppercased) second. -/
def _extract_age (t : Str) : Option Str :=
  if t.isEmpty then none
  else
    match reSearch matchPlusHere t with
    | some g => some g
    | none => (reSearch matchCertHere t).map pyUpperStr

/-- `(19\d{2}|20\d{2}|21\d{2})` — the year scanner of `_extract_year`. -/
def matchYearHere (_ : Option Char) (s : Str) : Option Nat :=
  match s with
  | a :: b :: c :: d :: _ =>
    if ((a = '1' ∧ b = '9') ∨ (a = '2' ∧ b = '0') ∨ (a = '2' ∧ b = '1')) ∧
        pyDigit c ∧ pyDigit d then
      some (digitsToNat [a, b, c, d])
    else none
  | _ => none

/-- `_extract_year`. -/
def _extract_year (t : Str) : Option Nat :=
  if t.isEmpty then none else reSearch matchYearHere t

/-- `\(\d{4}\)` — the parenthesised-year test used by
`el.find(string=re.compile(...))`. -/
def matchParenYearHere (_ : Option Char) (s : Str) : Option Unit :=
  match s with
  | '(' :: a :: b :: c :: d :: ')' :: _ =>
    if pyDigit a ∧ pyDigit b ∧ pyDigit c ∧ pyDigit d then some () else none
  | _ => none

example : floatTok (chars "8,7") = some ⟨false, 8, 7, 1⟩ := by decide
example : _to_float (chars "8,7") = some (87 / 10 : Rat) := by
  have h : floatTok (chars "8,7") = some ⟨false, 8, 7, 1⟩ := by decide
  rw [_to_float, h]
  norm_num [NumTok.val]
example : floatTok (chars "  9.3 ") = some ⟨false, 9, 3, 1⟩ := by decide
example : floatTok (chars "-.5") = some ⟨true, 0, 5, 1⟩ := by decide
example : floatTok (chars "12.") = some ⟨false, 12, 0, 0⟩ := by decide
example : _to_float (chars "no digits, none.") = none := by decide
example : _extract_age (chars "Rated 16+ only") = some (chars "16+") := by decide
example : _extract_age (chars "tv14") = some (chars "TV14") := by decide
example : _extract_age (chars "pg-13 fun") = some (chars "PG-13") := by decide
example : _extract_age (chars "pg-134") = some (chars "PG") := by decide
example : _extract_age (chars "1234+") = some (chars "234+") := by decide
example : _extract_age (chars "nothing") = none := by decide
example : _extract_year (chars "(1999)") = some 1999 := by decide
example : _extract_year (chars "x21999") = some 2199 := by decide
example : _extract_year (chars "(1899)") = none := by decide

/-- `(\d\.\d)\s*/\s*10` — the rating fallback scanner. -/
def matchRating10Here (_ : Option Char) (s : Str) : Option Str :=
  match s with
  | a :: '.' :: b :: rest =>
    if pyDigit a ∧ pyDigit b then
      match rest.dropWhile pyIsSpace with
      | '/' :: r2 =>
        match r2.dropWhile pyIsSpace with
        | '1' :: '0' :: _ => some [a, '.', b]
        | _ => none
      | _ => none
    else none
  | _ => none

/-- Characters of the class `[\d,\.]`. -/
def isNumCls (c : Char) : Bool := pyDigit c || c = ',' || c = '.'

/-- `based on\s+([\d,\.]+)\s+user`, case-insensitive — the first
title-attribute votes scanner.  Each greedy run is forced maximal (the
following literal cannot start with a run character). -/
def matchBasedOnHere (_ : Option Char) (s : Str) : Option Str :=
  if ciHasLit s (chars "based on") then
    let r1 := s.drop 8
    let w1 := r1.takeWhile pyIsSpace
    if w1.isEmpty then none
    else
      let r2 := r1.drop w1.length
      let run := r2.takeWhile isNumCls
      if run.isEmpty then none
      else
        let r3 := r2.drop run.length
        let w2 := r3.takeWhile pyIsSpace
        if w2.isEmpty then none
        else if ciHasLit (r3.drop w2.length) (chars "user") then some run else none
  else none

/-- `([\d,\.]+)\s+user`, case-insensitive — the second title-attribute
votes scanner. -/
def matchNumUserHere (_ : Option Char) (s : Str) : Option Str :=
  let run := s.takeWhile isNumCls
  if run.isEmpty then none
  else
    let r1 := s.drop run.length
    let w1 := r1.takeWhile pyIsSpace
    if w1.isEmpty then none
    else if ciHasLit (r1.drop w1.length) (chars "user") then some run else none

/-- `([\d,\.]{2,})\s*(?:votes|user ratings|user ratings|ratings)`,
case-insensitive — the whole-text votes scanner. -/
def matchVotesSuffixHere (_ : Option Char) (s : Str) : Option Str :=
  let run := s.takeWhile isNumCls
  if run.length < 2 then none
  else
    let r1 := (s.drop run.length).dropWhile pyIsSpace
    if ciHasLit r1 (chars "votes") || ciHasLit r1 (chars "user ratings") ||
        ciHasLit r1 (chars "ratings") then
      some run
    else none

/-- The repetitions of `(?:[.,]\d{3})+`: the list of (consumed chars,
rest) after 1, 2, … groups. -/
def groupReps : Str → List (Str × Str)
  | sep :: a :: b :: c :: rest =>
    if (sep = '.' ∨ sep = ',') ∧ pyDigit a ∧ pyDigit b ∧ pyDigit c then
      ([sep, a, b, c], rest) :: (groupReps rest).map (fun p => (sep :: a :: b :: c :: p.1, p.2))
    else []
  | _ => []

/-- `\b(\d{1,3}(?:[.,]\d{3})+)\b` — the grouped-thousands votes scanner.
`\d{1,3}` can only take a whole digit run (of length ≤ 3); the `+` group
is greedy and backtracks against the final `\b`. -/
def matchGroupedHere (prev : Option Char) (s : Str) : Option Str :=
  if nonWordOpt prev then
    let ds := s.takeWhile pyDigit
    if ds.isEmpty || 3 < ds.length then none
    else
      match ((groupReps (s.drop ds.length)).reverse.find? fun p =>
          nonWordOpt p.2.head?) with
      | some p => some (ds ++ p.1)
      | none => none
  else none

/-- The alternatives of the whole-text duration regex. -/
inductive DurAlt
  | hMin
  | nMin
  | bareMin
  | bare
deriving DecidableEq

/-- `\d+h\s*\d*min`, case-insensitive. -/
def altHMin (s : Str) : Option Str :=
  let ds := s.takeWhile pyDigit
  if ds.isEmpty then none
  else
    match s.drop ds.length with
    | h :: r1 =>
      if pyLower h = 'h' then
        let w := r1.takeWhile pyIsSpace
        let r2 := r1.drop w.length
        let d2 := r2.takeWhile pyDigit
        let r3 := r2.drop d2.length
        if ciHasLit r3 (chars "min") then some (ds ++ h :: (w ++ d2 ++ r3.take 3)) else none
      else none
    | [] => none

/-- `\d+\s*min`, case-insensitive. -/
def altNMin (s : Str) : Option Str :=
  let ds := s.takeWhile pyDigit
  if ds.isEmpty then none
  else
    let r1 := s.drop ds.length
    let w := r1.takeWhile pyIsSpace
    let r2 := r1.drop w.length
    if ciHasLit r2 (chars "min") then some (ds ++ w ++ r2.take 3) else none

/-- `\s*min` after the bare digits of the third alternative. -/
def minAfterWs (r : Str) : Option Str :=
  let w := r.takeWhile pyIsSpace
  let r2 := r.drop w.length
  if ciHasLit r2 (chars "min") then some (w ++ r2.take 3) else none

/-- `\b\d{2,3}\b\s*min`, case-insensitive. -/
def altBareMin (prev : Option Char) (s : Str) : Option Str :=
  if nonWordOpt prev then
    match s with
    | a :: b :: c :: rest =>
      if pyDigit a ∧ pyDigit b then
        if pyDigit c then
          if nonWordOpt rest.head? then (minAfterWs rest).map (fun t => [a, b, c] ++ t)
          else none
        else if !pyWord c then (minAfterWs (c :: rest)).map (fun t => [a, b] ++ t)
        else none
      else none
    | _ => none
  else none

/-- `(?!\s*votes)` — the negative lookahead of the fourth alternative. -/
def votesAfter (r : Str) : Bool := ciHasLit (r.dropWhile pyIsSpace) (chars "votes")

/-- `\b\d{2,3}\b(?!\s*votes)`, case-insensitive. -/
def altBareNoVotes (prev : Option Char) (s : Str) : Option Str :=
  if nonWordOpt prev then
    match s with
    | a :: b :: c :: rest =>
      if pyDigit a ∧ pyDigit b then
        if pyDigit c then
          if nonWordOpt rest.head? ∧ !votesAfter rest then some [a, b, c] else none
        else if !pyWord c ∧ !votesAfter (c :: rest) then some [a, b] else none
      else none
    | [a, b] => if pyDigit a ∧ pyDigit b ∧ !votesAfter [] then some [a, b] else none
    | _ => none
  else none

/-- `(\d+h\s*\d*min|\d+\s*min|\b\d{2,3}\b\s*min|\b\d{2,3}\b(?!\s*votes))`,
case-insensitive — the whole-text duration fallback, tagged with the
alternative that matched. -/
def matchDurHere (prev : Option Char) (s : Str) : Option (DurAlt × Str) :=
  match altHMin s with
  | some g => some (.hMin, g)
  | none =>
    match altNMin s with
    | some g => some (.nMin, g)
    | none =>
      match altBareMin prev s with
      | some g => some (.bareMin, g)
      | none => (altBareNoVotes prev s).map (fun g => (.bare, g))

example : reSearch matchRating10Here (chars "it, 9.3/10 stars") = some (chars "9.3") := by decide
example : reSearch matchRating10Here (chars "no 93/10 here") = none := by decide
example : reSearch matchBasedOnHere (chars "9.2 based on 1,600,000 user ratings") =
    some (chars "1,600,000") := by decide
example : reSearch matchVotesSuffixHere (chars "x 250,000 votes") =
    some (chars "250,000") := by decide
example : reSearch matchGroupedHere (chars "see 12,345,6789 x") = some (chars "12,345") := by decide
example : reSearch matchGroupedHere (chars "see 1234,567") = none := by decide
example : reSearch matchDurHere (chars "2h 22min, more") = some (.hMin, chars "2h 22min") := by decide
example : reSearch matchDurHere (chars "x 142 min") = some (.nMin, chars "142 min") := by decide
example : reSearch matchDurHere (chars "a 250 votes b 142") = some (.bare, chars "142") := by decide
example : reSearch matchDurHere (chars "year 1999 only") = none := by decide

/-- A parsed HTML node: an element (tag, attributes in document order,
children) or a text node (`NavigableString`). -/
inductive Node
  | elem (tag : Str) (attrs : List (Str × Str)) (children : List Node)
  | text (s : Str)

mutual
def decEqNode (a b : Node) : Decidable (a = b) :=
  match a, b with
  | .elem t1 a1 c1, .elem t2 a2 c2 =>
    if h1 : t1 = t2 then
      if h2 : a1 = a2 then
        match decEqNodeList c1 c2 with
        | isTrue h3 => isTrue (by rw [h1, h2, h3])
        | isFalse h3 => isFalse (by intro he; cases he; exact h3 rfl)
      else isFalse (by intro he; cases he; exact h2 rfl)
    else isFalse (by intro he; cases he; exact h1 rfl)
  | .elem _ _ _, .text _ => isFalse (by intro he; cases he)
  | .text _, .elem _ _ _ => isFalse (by intro he; cases he)
  | .text s1, .text s2 =>
    if h : s1 = s2 then isTrue (by rw [h])
    else isFalse (by intro he; cases he; exact h rfl)

def decEqNodeList (a b : List Node) : Decidable (a = b) :=
  match a, b with
  | [], [] => isTrue rfl
  | x :: xs, y :: ys =>
    match decEqNode x y, decEqNodeList xs ys with
    | isTrue h1, isTrue h2 => isTrue (by rw [h1, h2])
    | isFalse h1, _ => isFalse (by intro he; injection he with he1 he2; exact h1 he1)
    | isTrue _, isFalse h2 => isFalse (by intro he; injection he with he1 he2; exact h2 he2)
  | [], _ :: _ => isFalse (by intro he; cases he)
  | _ :: _, [] => isFalse (by intro he; cases he)
end

instance : DecidableEq Node := decEqNode

/-- Attribute lookup (`tag["k"]`, `tag.has_attr("k")`). -/
def attrGet (n : Node) (k : Str) : Option Str :=
  match n with
  | .elem _ attrs _ => (attrs.find? fun kv => kv.1 = k).map (fun kv => kv.2)
  | .text _ => none

mutual
/-- All descendant strings of a node, in document order
(BeautifulSoup's `.strings`). -/
def Node.strings : Node → List Str
  | .text s => [s]
  | .elem _ _ cs => stringsList cs

def stringsList : List Node → List Str
  | [] => []
  | c :: cs => Node.strings c ++ stringsList cs
end

/-- `get_text(separator, strip)`: join descendant strings; with
`strip=True` each string is stripped and empty ones are skipped. -/
def getText (n : Node) (sep : Str) (strip : Bool) : Str :=
  let ss := Node.strings n
  let parts := if strip then (ss.map pyStrip).filter (fun t => !t.isEmpty) else ss
  (parts.intersperse sep).flatten

mutual
/-- All element descendants of a list of nodes paired with their ancestor
chain (nearest first), in document (pre-order) order.  This is the search
space of `el.select` / `el.find`. -/
def ctxList (anc : List Node) : List Node → List (List Node × Node)
  | [] => []
  | c :: cs => ctxNode anc c ++ ctxList anc cs

def ctxNode (anc : List Node) : Node → List (List Node × Node)
  | .text _ => []
  | .elem t a cs => (anc, .elem t a cs) :: ctxList (.elem t a cs :: anc) cs
end

/-- Element descendants with ancestors, relative to `n`. -/
def descCtx (n : Node) : List (List Node × Node) :=
  match n with
  | .elem _ _ cs => ctxList [n] cs
  | .text _ => []

/-- Split a string on whitespace runs (Python `str.split()`, how the
`class` attribute is tokenised), with a token accumulator so that the
recursion is structural. -/
def splitWsAux : Str → Str → List Str
  | [], acc => if acc.isEmpty then [] else [acc.reverse]
  | c :: rest, acc =>
    if pyIsSpace c then
      if acc.isEmpty then splitWsAux rest [] else acc.reverse :: splitWsAux rest []
    else splitWsAux rest (c :: acc)

def splitWs (s : Str) : List Str := splitWsAux s []

/-- One attribute condition of a CSS simple selector. -/
inductive AttrCond
  | exact (k v : Str)
  | startsWith (k v : Str)
  | containsSub (k v : Str)
deriving DecidableEq

/-- Substring test (`[attr*='v']`). -/
def hasSubstr (hay needle : Str) : Bool :=
  hay.tails.any (fun t => needle.isPrefixOf t)

/-- A CSS simple selector: optional tag name, required classes, attribute
conditions. -/
structure SimpleSel where
  tag : Option Str
  classes : List Str
  conds : List AttrCond
deriving DecidableEq

/-- A compound (descendant) selector: the target simple selector plus the
ancestor selectors, nearest-expected first. -/
structure CompoundSel where
  target : SimpleSel
  ups : List SimpleSel
deriving DecidableEq

/-- A selector group (comma-separated compounds). -/
abbrev SelGroup := List CompoundSel

def matchesSimple (n : Node) (ss : SimpleSel) : Bool :=
  match n with
  | .text _ => false
  | .elem t attrs _ =>
    (match ss.tag with
     | some tg => tg = t
     | none => true) &&
    (ss.classes.all fun cl =>
      (splitWs ((attrGet (.elem t attrs []) (chars "class")).getD [])).contains cl) &&
    (ss.conds.all fun cond =>
      match cond with
      | .exact k v => attrGet (.elem t attrs []) k = some v
      | .startsWith k v =>
        match attrGet (.elem t attrs []) k with
        | some w => v.isPrefixOf w
        | none => false
      | .containsSub k v =>
        match attrGet (.elem t attrs []) k with
        | some w => hasSubstr w v
        | none => false)

/-- Match the ancestor part of a compound selector against an ancestor
chain (nearest first): each selector must match some ancestor, in
nesting order. -/
def chainUp : List Node → List SimpleSel → Bool
  | _, [] => true
  | [], _ :: _ => false
  | a :: anc, s :: rest => (matchesSimple a s && chainUp anc rest) || chainUp anc (s :: rest)

def matchesCompound (anc : List Node) (n : Node) (c : CompoundSel) : Bool :=
  matchesSimple n c.target && chainUp anc c.ups

def matchesGroup (anc : List Node) (n : Node) (g : SelGroup) : Bool :=
  g.any (matchesCompound anc n)

/-- `el.select(sel)`: matching element descendants in document order. -/
def select (el : Node) (g : SelGroup) : List Node :=
  ((descCtx el).filter fun p => matchesGroup p.1 p.2 g).map (fun p => p.2)

/-- `el.select_one(sel)`. -/
def select_one (el : Node) (g : SelGroup) : Option Node := (select el g).head?

/-- `el.find(string=regex)`: the first descendant string with a regex
match. -/
def findString (el : Node) (p : Str → Bool) : Option Str :=
  (Node.strings el).find? p

/-- Matching descendants with their ancestor chains. -/
def selectCtxG (el : Node) (g : SelGroup) : List (List Node × Node) :=
  (descCtx el).filter fun p => matchesGroup p.1 p.2 g

def tagSel (t : String) : SimpleSel := ⟨some (chars t), [], []⟩

def tagCls (t c : String) : SimpleSel := ⟨some (chars t), [chars c], []⟩

def clsSel (c : String) : SimpleSel := ⟨none, [chars c], []⟩

def one (s : SimpleSel) : SelGroup := [⟨s, []⟩]

def under (up target : SimpleSel) : SelGroup := [⟨target, [up]⟩]

/-- `table.chart tbody tr` -/
def selChartRows : SelGroup := [⟨tagSel "tr", [tagSel "tbody", tagCls "table" "chart"]⟩]

/-- `div.lister-list div.lister-item` -/
def selListerItems : SelGroup := under (tagCls "div" "lister-list") (tagCls "div" "lister-item")

/-- `div.list_item` -/
def selListItem : SelGroup := one (tagCls "div" "list_item")

/-- `li.ipc-metadata-list-summary-item` -/
def selIpcSummary : SelGroup := one (tagCls "li" "ipc-metadata-list-summary-item")

/-- `div.ipc-title-card` -/
def selIpcCard : SelGroup := one (tagCls "div" "ipc-title-card")

/-- `div.ranking-list-item` -/
def selRankingItem : SelGroup := one (tagCls "div" "ranking-list-item")

/-- `div.section .list_item` -/
def selSectionListItem : SelGroup := under (tagCls "div" "section") (clsSel "list_item")

/-- `div.titleOverview` -/
def selTitleOverview : SelGroup := one (tagCls "div" "titleOverview")

/-- The ordered structural patterns of `_gather_candidate_containers`. -/
def container_selectors : List SelGroup :=
  [selChartRows, selListerItems, selListItem, selIpcSummary, selIpcCard,
   selRankingItem, selSectionListItem, selTitleOverview]

/-- `a[href^='/title/tt']` -/
def selAnchor : SelGroup :=
  one ⟨some (chars "a"), [], [.startsWith (chars "href") (chars "/title/tt")]⟩

/-- The title selector cascade (`td.titleColumn a`;
`a.ipc-title-link, a.ipc-title-link-wrapper`; `h3.lister-item-header a`;
`h3 a`; `a[href^='/title/']`). -/
def title_selectors : List SelGroup :=
  [under (tagCls "td" "titleColumn") (tagSel "a"),
   [⟨tagCls "a" "ipc-title-link", []⟩, ⟨tagCls "a" "ipc-title-link-wrapper", []⟩],
   under (tagCls "h3" "lister-item-header") (tagSel "a"),
   under (tagSel "h3") (tagSel "a"),
   one ⟨some (chars "a"), [], [.startsWith (chars "href") (chars "/title/")]⟩]

/-- `td.ratingColumn.imdbRating strong` -/
def selRatingStrong : SelGroup :=
  under ⟨some (chars "td"), [chars "ratingColumn", chars "imdbRating"], []⟩ (tagSel "strong")

/-- The rating selector cascade. -/
def rating_selectors : List SelGroup :=
  [selRatingStrong,
   one (tagCls "span" "ipc-rating-star--rating"),
   one (tagCls "span" "aggregate-rating"),
   one ⟨some (chars "span"), [], [.containsSub (chars "class") (chars "ratingValue")]⟩,
   one ⟨some (chars "span"), [], [.exact (chars "itemprop") (chars "ratingValue")]⟩,
   one (tagSel "strong")]

/-- `span[name='nv']` -/
def selNvName : SelGroup := one ⟨some (chars "span"), [], [.exact (chars "name") (chars "nv")]⟩

/-- `span.ipc-rating-star--voteCount` -/
def selVoteCount : SelGroup := one (tagCls "span" "ipc-rating-star--voteCount")

/-- `.votes` -/
def selVotesCls : SelGroup := one (clsSel "votes")

/-- `span.secondaryInfo` -/
def selSecondaryInfo : SelGroup := one (tagCls "span" "secondaryInfo")

/-- `span.lister-item-year` -/
def selListerYear : SelGroup := one (tagCls "span" "lister-item-year")

/-- `.year` -/
def selYearCls : SelGroup := one (clsSel "year")

/-- `span.runtime`, `.runtime`, `li.runtime`, `div.runtime` -/
def runtime_selectors : List SelGroup :=
  [one (tagCls "span" "runtime"), one (clsSel "runtime"),
   one (tagCls "li" "runtime"), one (tagCls "div" "runtime")]

/-- `\d{1,3}\+\b` — the age-threshold alternative of the certificate
search regex (its trailing boundary sits after `+`, so it needs a word
character right after). -/
def altPlusBd (s : Str) : Option Str :=
  let ds := s.takeWhile pyDigit
  if 1 ≤ ds.length ∧ ds.length ≤ 3 then
    match s.drop ds.length with
    | '+' :: c :: _ => if pyWord c then some (ds ++ ['+']) else none
    | _ => none
  else none

/-- `\b(PG-?\d{1,2}|G|PG|R|NC-17|TV-?MA|TV-?14|\d{1,3}\+)\b`,
case-insensitive — the string filter used by
`el.find(string=re.compile(...))` for certificates. -/
def matchCertOrPlusHere (prev : Option Char) (s : Str) : Option Str :=
  match matchCertHere prev s with
  | some g => some g
  | none => if nonWordOpt prev then altPlusBd s else none

/-- `re.sub(r"^\d+\.\s*", "", title)`: drop one leading
ordinal-numbering prefix. -/
def stripOrdinal (s : Str) : Str :=
  let ds := s.takeWhile pyDigit
  if ds.isEmpty then s
  else
    match s.drop ds.length with
    | '.' :: rest => rest.dropWhile pyIsSpace
    | _ => s

/-- `if duration: break` — Python truthiness of the loop value. -/
def truthyDur : Option Nat → Bool
  | some n => !(n == 0)
  | none => false

/-- The runtime-selector loop of the extractor: each hit with non-empty
text re-assigns `duration`; a truthy value breaks the loop. -/
def durLoop : List (Option Node) → Option Nat → Option Nat
  | [], acc => acc
  | c :: rest, acc =>
    match c with
    | some rc =>
      if (getText rc [] true).isEmpty then durLoop rest acc
      else
        let d := _runtime_to_minutes (getText rc [] true)
        if truthyDur d then d else durLoop rest d
    | none => durLoop rest acc

/-- The extracted record (`_extract_from_container`'s result dict).
`Title` and `Age` carry `""` for an unresolved value (the source's
`x or ""`); the other fields carry `None` as `none`. -/
structure Rec where
  Title : Str
  Year : Option Nat
  Duration : Option Nat
  Age : Str
  Rating : Option Rat
  Votes : Option Nat
deriving DecidableEq

/-- The token-level rating cascade (selector loop, then the `N.N/10`
fallback); the record's float is `NumTok.val` of this. -/
def ratingTok (el : Node) (text : Str) : Option NumTok :=
  match rating_selectors.findSome? (fun sel =>
      (select_one el sel).bind fun n =>
        let t := getText n [] true
        if t.isEmpty then none else floatTok t) with
  | some tok => some tok
  | none => (reSearch matchRating10Here text).bind floatTok

/-- The title cascade of `_extract_from_container`: first selector hit
with non-empty stripped text; then the ordinal prefix is dropped and the
result stripped; `title or ""`. -/
def titleOf (el : Node) : Str :=
  match title_selectors.findSome? (fun sel =>
      (select_one el sel).bind fun t =>
        if (getText t [] true).isEmpty then none else some (getText t (chars " ") true)) with
  | some t => pyStrip (stripOrdinal t)
  | none => []

/-- The year cascade: three selector candidates, the parenthesised-year
string candidate, then the whole text. -/
def yearOf (el : Node) (text : Str) : Option Nat :=
  let yCands : List (Option Str) :=
    [(select_one el selSecondaryInfo).map (fun n => getText n [] true),
     (select_one el selListerYear).map (fun n => getText n [] true),
     (select_one el selYearCls).map (fun n => getText n [] true),
     findString el (fun t => (reSearch matchParenYearHere t).isSome)]
  match yCands.findSome? (fun oc => oc.bind _extract_year) with
  | some y => some y
  | none => _extract_year text

/-- The duration cascade: the runtime-selector loop, then the whole-text
regex fallback (whose value is kept even when falsy). -/
def durationOf (el : Node) (text : Str) : Option Nat :=
  let dur0 := durLoop (runtime_selectors.map (select_one el)) none
  if truthyDur dur0 then dur0
  else
    match reSearch matchDurHere text with
    | some ag => _runtime_to_minutes ag.2
    | none => dur0

/-- The age cascade: the certificate string node first, the whole text
second. -/
def ageOf (el : Node) (text : Str) : Option Str :=
  let age0 :=
    match findString el (fun t => (reSearch matchCertOrPlusHere t).isSome) with
    | some certStr => _extract_age certStr
    | none => none
  match age0 with
  | some a => some a
  | none => _extract_age text

/-- `nv = el.select_one("span[name='nv']") or ... or
el.select_one(".votes")`. -/
def nvNode (el : Node) : Option Node :=
  (select_one el selNvName).orElse fun _ =>
    (select_one el selVoteCount).orElse fun _ => select_one el selVotesCls

/-- First votes stage: the `nv` node's machine-readable attribute, or its
digit-stripped text. -/
def votesStage0 (el : Node) : Option Nat :=
  match nvNode el with
  | some n =>
    match attrGet n (chars "data-value") with
    | some v => _to_int v
    | none => _clean_votes_text (getText n [] false)
  | none => none

/-- Second votes stage: the rating cell's `title` attribute
("9.2 based on 1,600,000 user ratings"). -/
def votesStage1 (el : Node) : Option Nat :=
  match select_one el selRatingStrong with
  | some strong =>
    match attrGet strong (chars "title") with
    | some ttl =>
      (match reSearch matchBasedOnHere ttl with
       | some g => some g
       | none => reSearch matchNumUserHere ttl).bind _clean_votes_text
    | none => none
  | none => none

/-- The votes cascade: `nv`-style node (machine attribute or digit
stripping), the rating cell's `title` attribute, the whole-text
"votes/ratings" search, the grouped-thousands heuristic. -/
def votesOf (el : Node) (text : Str) : Option Nat :=
  match votesStage0 el with
  | some v => some v
  | none =>
    match votesStage1 el with
    | some v => some v
    | none =>
      match (reSearch matchVotesSuffixHere text).bind _clean_votes_text with
      | some v => some v
      | none => (reSearch matchGroupedHere text).bind _clean_votes_text

/-- `_extract_from_container`: the six per-field cascades over one item.
Loops whose Python form is "assign, break when non-None/truthy" are
folded into `findSome?`/`durLoop`; `el.select_one(x) or
el.select_one(y)` is `Option.orElse`. -/
def _extract_from_container (el : Node) : Rec :=
  let text := getText el (chars " ") true
  { Title := titleOf el, Year := yearOf el text, Duration := durationOf el text,
    Age := (ageOf el text).getD [], Rating := (ratingTok el text).map NumTok.val,
    Votes := votesOf el text }

/-- First-occurrence de-duplication by key, with an accumulator of keys
already seen (the source's `seen` set / `parents` list pattern). -/
def dedupByKeyAux {α κ : Type} [DecidableEq κ] (key : α → κ) (seen : List κ) :
    List α → List α
  | [] => []
  | x :: xs =>
    if key x ∈ seen then dedupByKeyAux key seen xs
    else x :: dedupByKeyAux key (key x :: seen) xs

def dedupByKey {α κ : Type} [DecidableEq κ] (key : α → κ) (l : List α) : List α :=
  dedupByKeyAux key [] l

/-- The container-like tags of `find_parent(["li","div","tr","article",
"section"])`. -/
def containerTags : List Str :=
  [chars "li", chars "div", chars "tr", chars "article", chars "section"]

/-- `a.find_parent([...]) or a.parent` for an anchor with ancestor chain
`anc` (nearest first). -/
def parentOf (anc : List Node) : Node :=
  match anc.find? (fun p =>
      match p with
      | .elem t _ _ => containerTags.contains t
      | .text _ => false) with
  | some p => p
  | none => anc.headD (.elem [] [] [])

/-- The de-duplicated parent blocks of the title anchors (the source's
`p not in parents` loop; BeautifulSoup `in` compares tags
structurally). -/
def anchorParents (soup : Node) : List Node :=
  dedupByKey (fun n => n) ((selectCtxG soup selAnchor).map (fun p => parentOf p.1))

/-- `_gather_candidate_containers`: every structural pattern contributes
all its matches; if the pool is empty, fall back to anchor parents;
de-duplicate by `str(hash(el))` — structural identity — keeping first
occurrences. -/
def _gather_candidate_containers (soup : Node) : List Node :=
  let found := container_selectors.foldl (fun acc sel =>
      let nodes := select soup sel
      if nodes.isEmpty then acc else acc ++ nodes) []
  let found2 := if found.isEmpty then anchorParents soup else found
  dedupByKey (fun n => n) found2

/-- The de-duplication key of `drop_duplicates(subset=["Title_norm",
"Year_norm"])`: the stripped-lowercased title and the year.  (The source
keys on the *stringified* year with `None ↦ ""`; both renderings pandas
can produce are injective on years, so keying on the optional year itself
is observably identical.) -/
def recKey (r : Rec) : Str × Option Nat := (pyLowerStr (pyStrip r.Title), r.Year)

/-- The rows assembled by `scrape_imdb_generic` before de-duplication:
extraction over the located containers, keeping non-empty titles; if that
is empty, a second pass over de-duplicated anchor parents. -/
def preRows (soup : Node) : List Rec :=
  let rows1 := ((_gather_candidate_containers soup).map _extract_from_container).filter
    (fun r => !r.Title.isEmpty)
  if rows1.isEmpty then
    ((anchorParents soup).map _extract_from_container).filter (fun r => !r.Title.isEmpty)
  else rows1

/-- The final dataset: de-duplicate by (normalised title, year), then
number rows 1..N (`df.insert(0, "No.", range(1, len(df) + 1))`). -/
def scrapeDataset (soup : Node) : List (Nat × Rec) :=
  let dd := dedupByKey recKey (preRows soup)
  (List.range' 1 dd.length).zip dd

/-- The outcome of the network fetch (the external collaborator). -/
inductive FetchResult
  | response (status : Nat) (doc : Node)
  | netError
  | timeout

/-- The exceptions `requests` can raise in `_get_soup`. -/
inductive PyErr
  | httpError (status : Nat)
  | connectionError
  | timeoutError
deriving DecidableEq

/-- `_get_soup`: `requests.get` followed by `raise_for_status()`, which
raises exactly for 4xx/5xx statuses; otherwise the body is parsed. -/
def _get_soup : FetchResult → Except PyErr Node
  | .response st doc =>
    if 400 ≤ st ∧ st < 600 then .error (.httpError st) else .ok doc
  | .netError => .error .connectionError
  | .timeout => .error .timeoutError

/-- `scrape_imdb_generic`: fetch, then the pure pipeline.  An exception
from `_get_soup` propagates (there is no handler in the function). -/
def scrape_imdb_generic (f : FetchResult) : Except PyErr (List (Nat × Rec)) :=
  match _get_soup f with
  | .error e => .error e
  | .ok soup => .ok (scrapeDataset soup)

def attr (k v : String) : Str × Str := (chars k, chars v)

/-- The spec §8 end-to-end scenario row: `td.titleColumn a` = "Movie X",
a year span "(1999)", a rating cell with bold "8.5" carrying a vote
title. -/
def demoRow : Node :=
  .elem (chars "tr") []
    [.elem (chars "td") [attr "class" "titleColumn"]
      [.elem (chars "a") [attr "href" "/title/tt0000001/"] [.text (chars "Movie X")],
       .elem (chars "span") [attr "class" "secondaryInfo"] [.text (chars "(1999)")]],
     .elem (chars "td") [attr "class" "ratingColumn imdbRating"]
      [.elem (chars "strong") [attr "title" "8.5 based on 2,000,000 user ratings"]
        [.text (chars "8.5")]]]

def demoDoc : Node :=
  .elem (chars "[document]") []
    [.elem (chars "table") [attr "class" "chart"]
      [.elem (chars "tbody") [] [demoRow]]]

example : (_extract_from_container demoRow).Title = chars "Movie X" := by decide
example : (_extract_from_container demoRow).Year = some 1999 := by decide
example : (_extract_from_container demoRow).Votes = some 2000000 := by decide
example : ratingTok demoRow (getText demoRow (chars " ") true) = some ⟨false, 8, 5, 1⟩ := by
  decide
example : _gather_candidate_containers demoDoc = [demoRow] := by decide
example : (scrapeDataset demoDoc).map Prod.fst = [1] := by decide
example : ((scrapeDataset demoDoc).map Prod.snd).map Rec.Title = [chars "Movie X"] := by decide

/-! ## Generic lemmas about the scanners and the de-duplication -/

theorem scanStr_some {α : Type} (m : Option Char → Str → Option α) :
    ∀ (s : Str) (prev : Option Char) (r : α),
      scanStr m prev s = some r → ∃ p t, m p t = some r := by
  intro s
  induction s with
  | nil =>
    intro prev r h
    rw [scanStr] at h
    split at h
    · exact ⟨prev, [], by rw [‹m prev [] = some _›, h]⟩
    · exact absurd h (by simp)
  | cons c rest ih =>
    intro prev r h
    rw [scanStr] at h
    split at h
    · exact ⟨prev, c :: rest, by rw [‹m prev (c :: rest) = some _›, h]⟩
    · exact ih (some c) r h

theorem scanStr_none {α : Type} (m : Option Char → Str → Option α)
    (P : Option Char → Str → Prop)
    (hstep : ∀ (c : Char) (t : Str) (prev : Option Char), P prev (c :: t) → P (some c) t)
    (hm : ∀ (prev : Option Char) (t : Str), P prev t → m prev t = none) :
    ∀ (s : Str) (prev : Option Char), P prev s → scanStr m prev s = none := by
  intro s
  induction s with
  | nil =>
    intro prev hp
    rw [scanStr, hm prev [] hp]
  | cons c rest ih =>
    intro prev hp
    rw [scanStr, hm prev (c :: rest) hp]
    exact ih (some c) (hstep c rest prev hp)

theorem dedupByKeyAux_sublist {α κ : Type} [DecidableEq κ] (key : α → κ) :
    ∀ (l : List α) (seen : List κ), (dedupByKeyAux key seen l).Sublist l := by
  intro l
  induction l with
  | nil => intro seen; simp [dedupByKeyAux]
  | cons x xs ih =>
    intro seen
    rw [dedupByKeyAux]
    split
    · exact (ih seen).cons x
    · exact (ih (key x :: seen)).cons₂ x

theorem dedupByKeyAux_nodup {α κ : Type} [DecidableEq κ] (key : α → κ) :
    ∀ (l : List α) (seen : List κ),
      ((dedupByKeyAux key seen l).map key).Nodup ∧
      ∀ k ∈ (dedupByKeyAux key seen l).map key, k ∉ seen := by
  intro l
  induction l with
  | nil => intro seen; simp [dedupByKeyAux]
  | cons x xs ih =>
    intro seen
    rw [dedupByKeyAux]
    split
    · exact ih seen
    · have ih2 := ih (key x :: seen)
      refine ⟨?_, ?_⟩
      · simp only [List.map_cons, List.nodup_cons]
        refine ⟨fun hmem => ?_, ih2.1⟩
        exact (ih2.2 (key x) hmem) (List.mem_cons_self _ _)
      · intro k hk
        simp only [List.map_cons, List.mem_cons] at hk
        rcases hk with hk | hk
        · subst hk; assumption
        · intro hseen
          exact (ih2.2 k hk) (List.mem_cons_of_mem _ hseen)

theorem dedupByKeyAux_find {α κ : Type} [DecidableEq κ] (key : α → κ) :
    ∀ (l : List α) (seen : List κ) (r : α), r ∈ dedupByKeyAux key seen l →
      key r ∉ seen ∧ l.find? (fun x => decide (key x = key r)) = some r := by
  intro l
  induction l with
  | nil => intro seen r h; simp [dedupByKeyAux] at h
  | cons x xs ih =>
    intro seen r h
    rw [dedupByKeyAux] at h
    split at h
    · rename_i hseen
      obtain ⟨hnot, hfind⟩ := ih seen r h
      have hne : key x ≠ key r := fun he => hnot (he ▸ hseen)
      refine ⟨hnot, ?_⟩
      rw [List.find?_cons_of_neg _ (by simpa using hne), hfind]
    · rename_i hseen
      rcases List.mem_cons.mp h with he | hm
      · subst he
        exact ⟨hseen, List.find?_cons_of_pos _ (by simp)⟩
      · obtain ⟨hnot, hfind⟩ := ih (key x :: seen) r hm
        have hne : key x ≠ key r := fun he => hnot (by rw [← he]; exact List.mem_cons_self _ _)
        refine ⟨fun hs => hnot (List.mem_cons_of_mem _ hs), ?_⟩
        rw [List.find?_cons_of_neg _ (by simpa using hne), hfind]

theorem dedupByKeyAux_mem {α κ : Type} [DecidableEq κ] (key : α → κ) :
    ∀ (l : List α) (seen : List κ) (x : α), x ∈ l → key x ∉ seen →
      key x ∈ (dedupByKeyAux key seen l).map key := by
  intro l
  induction l with
  | nil => intro seen x h; simp at h
  | cons y ys ih =>
    intro seen x hx hseen
    rw [dedupByKeyAux]
    rcases List.mem_cons.mp hx with he | hx2
    · subst he
      split
    
      · exact absurd ‹key x ∈ seen› hseen
      · simp
    · split
      · exact ih seen x hx2 hseen
      · by_cases hk : key x = key y
        · simp [hk]
        · simp only [List.map_cons, List.mem_cons]
          exact Or.inr (ih (key y :: seen) x hx2 (by simp [hk, hseen]))

theorem dedupByKey_sublist {α κ : Type} [DecidableEq κ] (key : α → κ) (l : List α) :
    (dedupByKey key l).Sublist l := dedupByKeyAux_sublist key l []

theorem dedupByKey_nodup {α κ : Type} [DecidableEq κ] (key : α → κ) (l : List α) :
    ((dedupByKey key l).map key).Nodup := (dedupByKeyAux_nodup key l []).1

theorem dedupByKey_find {α κ : Type} [DecidableEq κ] (key : α → κ) (l : List α) (r : α)
    (h : r ∈ dedupByKey key l) : l.find? (fun x => decide (key x = key r)) = some r :=
  (dedupByKeyAux_find key l [] r h).2

theorem dedupById_mem {α : Type} [DecidableEq α] (l : List α) (x : α) (h : x ∈ l) :
    x ∈ dedupByKey (fun n => n) l := by
  have := dedupByKeyAux_mem (fun n => n) l [] x h (by simp)
  simpa using this

theorem dedupById_nodup {α : Type} [DecidableEq α] (l : List α) :
    (dedupByKey (fun n => n) l).Nodup := by
  have := dedupByKey_nodup (fun n => n) l
  simpa using this

/-! ## Character-case lemmas -/

theorem char_toNat_ofNat {n : Nat} (h : n < 55296) : (Char.ofNat n).toNat = n := by
  have hv : n.isValidChar := Or.inl h
  simp only [Char.ofNat, hv, Char.ofNatAux, Char.toNat, dif_pos]
  rfl

theorem pyUpper_of_lower {c d : Char} (h : pyLower c = d)
    (hd : 97 ≤ d.toNat ∧ d.toNat ≤ 122) : pyUpper c = pyUpper d := by
  by_cases hc : 65 ≤ c.toNat ∧ c.toNat ≤ 90
  · have hdef : d = Char.ofNat (c.toNat + 32) := by rw [← h]; simp [pyLower, hc]
    have htn : d.toNat = c.toNat + 32 := by rw [hdef]; exact char_toNat_ofNat (by omega)
    have h1 : pyUpper c = c := by
      have : ¬(97 ≤ c.toNat ∧ c.toNat ≤ 122) := by omega
      simp [pyUpper, this]
    have h2 : pyUpper d = Char.ofNat (d.toNat - 32) := by simp [pyUpper, hd]
    rw [h1, h2, htn]
    simp
  · have hdef : d = c := by rw [← h]; simp [pyLower, hc]
    rw [hdef]

theorem pyUpper_digit {c : Char} (h : pyDigit c = true) : pyUpper c = c := by
  simp only [pyDigit, Bool.and_eq_true, decide_eq_true_eq] at h
  have : ¬(97 ≤ c.toNat ∧ c.toNat ≤ 122) := by omega
  simp [pyUpper, this]

theorem pyIsSpace_pyLower (c : Char) : pyIsSpace (pyLower c) = pyIsSpace c := by
  unfold pyLower
  split
  · rename_i hc
    have h1 : (Char.ofNat (c.toNat + 32)).toNat = c.toNat + 32 := char_toNat_ofNat (by omega)
    have hL : pyIsSpace (Char.ofNat (c.toNat + 32)) = false := by
      simp only [pyIsSpace, h1]
      simp only [Bool.or_eq_false_iff, decide_eq_false_iff_not]
      omega
    have hR : pyIsSpace c = false := by
      simp only [pyIsSpace]
      simp only [Bool.or_eq_false_iff, decide_eq_false_iff_not]
      omega
    rw [hL, hR]
  · rfl

theorem pyStrip_pyLowerStr (s : Str) : pyStrip (pyLowerStr s) = pyLowerStr (pyStrip s) := by
  have hpred : (pyIsSpace ∘ pyLower) = pyIsSpace := funext pyIsSpace_pyLower
  simp only [pyStrip, pyLowerStr, List.dropWhile_map, ← List.map_reverse, hpred]

/-! ## Digit-free items -/

mutual
/-- No digit appears anywhere in the node: not in a text node and not in an
attribute value ("no numeric cue anywhere in the item"). -/
def digitFree : Node → Bool
  | .text s => s.all fun c => !pyDigit c
  | .elem _ attrs cs =>
    (attrs.all fun kv => kv.2.all fun c => !pyDigit c) && digitFreeList cs

def digitFreeList : List Node → Bool
  | [] => true
  | c :: cs => digitFree c && digitFreeList cs
end

mutual
theorem digitFree_ctxList : ∀ (anc cs : List Node), digitFreeList cs = true →
    ∀ p ∈ ctxList anc cs, digitFree p.2 = true
  | _, [], _ => by intro p hp; simp [ctxList] at hp
  | anc, c :: cs, h => by
    intro p hp
    rw [ctxList] at hp
    rw [digitFreeList, Bool.and_eq_true] at h
    rcases List.mem_append.mp hp with h1 | h2
    · exact digitFree_ctxNode anc c h.1 p h1
    · exact digitFree_ctxList anc cs h.2 p h2

theorem digitFree_ctxNode : ∀ (anc : List Node) (c : Node), digitFree c = true →
    ∀ p ∈ ctxNode anc c, digitFree p.2 = true
  | _, .text _, _ => by intro p hp; simp [ctxNode] at hp
  | anc, .elem t a cs, h => by
    intro p hp
    rw [ctxNode] at hp
    rcases List.mem_cons.mp hp with he | hm
    · rw [he]
      exact h
    · rw [digitFree, Bool.and_eq_true] at h
      exact digitFree_ctxList _ cs h.2 p hm
end

mutual
theorem digitFree_strings : ∀ (n : Node), digitFree n = true →
    ∀ t ∈ Node.strings n, ∀ c ∈ t, pyDigit c = false
  | .text s, h => by
    intro t ht c hc
    rw [Node.strings] at ht
    rw [List.mem_singleton] at ht
    subst ht
    rw [digitFree] at h
    simpa using List.all_eq_true.mp h c hc
  | .elem tg a cs, h => by
    rw [digitFree, Bool.and_eq_true] at h
    rw [Node.strings]
    exact digitFree_stringsList cs h.2

theorem digitFree_stringsList : ∀ (cs : List Node), digitFreeList cs = true →
    ∀ t ∈ stringsList cs, ∀ c ∈ t, pyDigit c = false
  | [], _ => by intro t ht; simp [stringsList] at ht
  | n :: cs, h => by
    intro t ht
    rw [stringsList] at ht
    rw [digitFreeList, Bool.and_eq_true] at h
    rcases List.mem_append.mp ht with h1 | h2
    · exact digitFree_strings n h.1 t h1
    · exact digitFree_stringsList cs h.2 t h2
end

theorem digitFree_attr {n : Node} (h : digitFree n = true) {k v : Str}
    (hv : attrGet n k = some v) : ∀ c ∈ v, pyDigit c = false := by
  intro c hc
  cases n with
  | text s => simp [attrGet] at hv
  | elem t attrs cs =>
    rw [digitFree, Bool.and_eq_true] at h
    rw [attrGet] at hv
    cases hfind : attrs.find? (fun kv => decide (kv.1 = k)) with
    | none => rw [hfind] at hv; simp at hv
    | some kv =>
      rw [hfind] at hv
      simp only [Option.map] at hv
      have hv2 : kv.2 = v := by injection hv
      have hmem := List.mem_of_find?_eq_some hfind
      have hall := List.all_eq_true.mp h.1 kv hmem
      rw [← hv2] at hc
      simpa using List.all_eq_true.mp hall c hc

theorem mem_pyStrip {t : Str} {c : Char} (h : c ∈ pyStrip t) : c ∈ t := by
  unfold pyStrip at h
  rw [List.mem_reverse] at h
  have h2 := List.dropWhile_subset pyIsSpace h
  rw [List.mem_reverse] at h2
  exact List.dropWhile_subset pyIsSpace h2

theorem mem_intersperse {α : Type} (sep : α) : ∀ (l : List α) (x : α),
    x ∈ l.intersperse sep → x = sep ∨ x ∈ l
  | [], x, h => by simp [List.intersperse] at h
  | [a], x, h => by
    simp only [List.intersperse] at h
    rw [List.mem_singleton] at h
    exact Or.inr (by simp [h])
  | a :: b :: l, x, h => by
    simp only [List.intersperse] at h
    rcases List.mem_cons.mp h with h1 | h1
    · exact Or.inr (by simp [h1])
    rcases List.mem_cons.mp h1 with h2 | h2
    · exact Or.inl h2
    · rcases mem_intersperse sep (b :: l) x h2 with h3 | h3
      · exact Or.inl h3
      · exact Or.inr (List.mem_cons_of_mem _ h3)

/-- Every character of any `get_text` of a digit-free node is a
non-digit (for a digit-free separator). -/
theorem getText_digitFree {n : Node} (h : digitFree n = true) {sep : Str}
    (hsep : ∀ c ∈ sep, pyDigit c = false) (strip : Bool) :
    ∀ c ∈ getText n sep strip, pyDigit c = false := by
  intro c hc
  unfold getText at hc
  rw [List.mem_flatten] at hc
  obtain ⟨part, hpart, hcp⟩ := hc
  rcases mem_intersperse sep _ part hpart with hs | hp
  · exact hsep c (hs ▸ hcp)
  · split at hp
    · rw [List.mem_filter] at hp
      obtain ⟨hp1, _⟩ := hp
      rw [List.mem_map] at hp1
      obtain ⟨t, ht, hstrip⟩ := hp1
      exact digitFree_strings n h t ht c (mem_pyStrip (hstrip ▸ hcp))
    · exact digitFree_strings n h part hp c hcp

/-! ## Scanner lemmas for digit-free text -/

theorem takeWhile_nil_of_all {p : Char → Bool} {s : Str}
    (h : ∀ c ∈ s, p c = false) : s.takeWhile p = [] := by
  cases s with
  | nil => rfl
  | cons c rest =>
    rw [List.takeWhile_cons, h c (List.mem_cons_self _ _)]
    simp

theorem reSearch_none_of_digitFree {α : Type} (m : Option Char → Str → Option α)
    (hm : ∀ (prev : Option Char) (t : Str), (∀ c ∈ t, pyDigit c = false) → m prev t = none)
    {s : Str} (h : ∀ c ∈ s, pyDigit c = false) : reSearch m s = none :=
  scanStr_none m (fun _ t => ∀ c ∈ t, pyDigit c = false)
    (fun c _ _ hp => fun d hd => hp d (List.mem_cons_of_mem c hd)) hm s none h

theorem matchHHere_none {prev : Option Char} {t : Str}
    (h : ∀ c ∈ t, pyDigit c = false) : matchHHere prev t = none := by
  simp [matchHHere, takeWhile_nil_of_all h]

theorem matchMinHere_none {prev : Option Char} {t : Str}
    (h : ∀ c ∈ t, pyDigit c = false) : matchMinHere prev t = none := by
  simp [matchMinHere, takeWhile_nil_of_all h]

theorem matchBare23Here_none {prev : Option Char} {t : Str}
    (h : ∀ c ∈ t, pyDigit c = false) : matchBare23Here prev t = none := by
  unfold matchBare23Here
  cases t with
  | nil => simp
  | cons a rest =>
    have ha := h a (List.mem_cons_self _ _)
    cases rest with
    | nil => simp [ha]
    | cons b rest2 =>
      cases rest2 with
      | nil => simp [ha]
      | cons c rest3 => simp [ha]

theorem numBody_none {neg : Bool} {s : Str} (h : ∀ c ∈ s, pyDigit c = false) :
    numBody neg s = none := by
  unfold numBody
  rw [takeWhile_nil_of_all h]
  simp only [List.isEmpty_nil, if_true]
  split
  · rename_i rest
    rw [takeWhile_nil_of_all (fun c hc => h c (List.mem_cons_of_mem _ hc))]
    simp
  · rfl

theorem matchNumHere_none {prev : Option Char} {t : Str}
    (h : ∀ c ∈ t, pyDigit c = false) : matchNumHere prev t = none := by
  cases t with
  | nil => rfl
  | cons c rest =>
    have hrest : ∀ d ∈ rest, pyDigit d = false :=
      fun d hd => h d (List.mem_cons_of_mem _ hd)
    show (if c = '+' then numBody false rest
        else if c = '-' then numBody true rest else numBody false (c :: rest)) = none
    by_cases h1 : c = '+'
    · simp [h1, numBody_none hrest]
    · by_cases h2 : c = '-'
      · simp [h1, h2, numBody_none hrest]
      · simp [h1, h2, numBody_none h]

theorem floatTok_none {t : Str} (h : ∀ c ∈ t, pyDigit c = false) : floatTok t = none := by
  unfold floatTok
  refine reSearch_none_of_digitFree _ (fun prev u hu => matchNumHere_none hu) ?_
  intro c hc
  rw [List.mem_map] at hc
  obtain ⟨d, hd, he⟩ := hc
  subst he
  by_cases hd2 : d = ','
  · simp [hd2]
    decide
  · simp only [hd2, if_false]
    exact h d (mem_pyStrip hd)

theorem matchRating10Here_none {prev : Option Char} {t : Str}
    (h : ∀ c ∈ t, pyDigit c = false) : matchRating10Here prev t = none := by
  unfold matchRating10Here
  split
  · rename_i a b rest
    have ha := h a (List.mem_cons_self _ _)
    simp [ha]
  · rfl

theorem matchYearHere_none {prev : Option Char} {t : Str}
    (h : ∀ c ∈ t, pyDigit c = false) : matchYearHere prev t = none := by
  unfold matchYearHere
  split
  · rename_i a b c d rest
    have hc := h c (by simp)
    simp [hc]
  · rfl

theorem matchGroupedHere_none {prev : Option Char} {t : Str}
    (h : ∀ c ∈ t, pyDigit c = false) : matchGroupedHere prev t = none := by
  unfold matchGroupedHere
  rw [takeWhile_nil_of_all h]
  simp

theorem _to_int_none {t : Str} (h : ∀ c ∈ t, pyDigit c = false) : _to_int t = none := by
  unfold _to_int
  have : t.filter pyDigit = [] := by
    rw [List.filter_eq_nil_iff]
    intro c hc
    simp [h c hc]
  simp [this]

theorem _clean_votes_text_none {t : Str} (h : ∀ c ∈ t, pyDigit c = false) :
    _clean_votes_text t = none := by
  unfold _clean_votes_text
  have : t.filter pyDigit = [] := by
    rw [List.filter_eq_nil_iff]
    intro c hc
    simp [h c hc]
  simp [this]

/-! ## Field cascades on digit-free items -/

theorem digitFree_descCtx {el : Node} (h : digitFree el = true) :
    ∀ p ∈ descCtx el, digitFree p.2 = true := by
  intro p hp
  cases el with
  | text s => simp [descCtx] at hp
  | elem t a cs =>
    rw [digitFree, Bool.and_eq_true] at h
    exact digitFree_ctxList _ cs h.2 p hp

theorem mem_select {el : Node} {g : SelGroup} {n : Node} (hn : n ∈ select el g) :
    ∃ p ∈ descCtx el, p.2 = n := by
  unfold select at hn
  rw [List.mem_map] at hn
  obtain ⟨p, hp, he⟩ := hn
  exact ⟨p, List.mem_of_mem_filter hp, he⟩

theorem digitFree_select_one {el : Node} (h : digitFree el = true) {g : SelGroup} {n : Node}
    (hn : select_one el g = some n) : digitFree n = true := by
  unfold select_one at hn
  have hmem : n ∈ select el g := by
    cases hsel : select el g with
    | nil => rw [hsel] at hn; simp at hn
    | cons x xs =>
      rw [hsel] at hn
      simp only [List.head?] at hn
      have hxn : x = n := by injection hn
      subst hxn
      exact List.mem_cons_self _ _
  obtain ⟨p, hp, he⟩ := mem_select hmem
  rw [← he]
  exact digitFree_descCtx h p hp

theorem matchBasedOnHere_sub {prev : Option Char} {t g : Str}
    (h : matchBasedOnHere prev t = some g) : ∀ c ∈ g, c ∈ t := by
  intro c hc
  simp only [matchBasedOnHere] at h
  split at h
  · split at h
    · exact absurd h (by simp)
    · split at h
      · exact absurd h (by simp)
      · split at h
        · exact absurd h (by simp)
        · split at h
          · simp only [Option.some.injEq] at h
            rw [← h] at hc
            exact List.drop_subset _ _ (List.drop_subset _ _ (List.takeWhile_subset _ hc))
          · exact absurd h (by simp)
  · exact absurd h (by simp)

theorem matchNumUserHere_sub {prev : Option Char} {t g : Str}
    (h : matchNumUserHere prev t = some g) : ∀ c ∈ g, c ∈ t := by
  intro c hc
  simp only [matchNumUserHere] at h
  split at h
  · exact absurd h (by simp)
  · split at h
    · exact absurd h (by simp)
    · split at h
      · simp only [Option.some.injEq] at h
        rw [← h] at hc
        exact List.takeWhile_subset _ hc
      · exact absurd h (by simp)

theorem matchVotesSuffixHere_sub {prev : Option Char} {t g : Str}
    (h : matchVotesSuffixHere prev t = some g) : ∀ c ∈ g, c ∈ t := by
  intro c hc
  simp only [matchVotesSuffixHere] at h
  split at h
  · exact absurd h (by simp)
  · split at h
    · simp only [Option.some.injEq] at h
      rw [← h] at hc
      exact List.takeWhile_subset _ hc
    · exact absurd h (by simp)

/-- A search whose every possible group is made of characters of the
searched string yields only digit-free groups on digit-free input; its
digit-stripping parse is then `none`. -/
theorem scanStr_some_suffix {α : Type} (m : Option Char → Str → Option α) :
    ∀ (s : Str) (prev : Option Char) (r : α),
      scanStr m prev s = some r → ∃ p u, (∀ c ∈ u, c ∈ s) ∧ m p u = some r := by
  intro s
  induction s with
  | nil =>
    intro prev r h
    rw [scanStr] at h
    split at h
    · exact ⟨prev, [], by simp, by rw [‹m prev [] = some _›, h]⟩
    · exact absurd h (by simp)
  | cons c rest ih =>
    intro prev r h
    rw [scanStr] at h
    split at h
    · exact ⟨prev, c :: rest, fun d hd => hd, by rw [‹m prev (c :: rest) = some _›, h]⟩
    · obtain ⟨p, u, hu, hm⟩ := ih (some c) r h
      exact ⟨p, u, fun d hd => List.mem_cons_of_mem _ (hu d hd), hm⟩

theorem bind_clean_none {m : Option Char → Str → Option Str}
    (hsub : ∀ (prev : Option Char) (t g : Str), m prev t = some g → ∀ c ∈ g, c ∈ t)
    {t : Str} (h : ∀ c ∈ t, pyDigit c = false) :
    (reSearch m t).bind _clean_votes_text = none := by
  cases hm : reSearch m t with
  | none => rfl
  | some g =>
    suffices hsub2 : ∀ c ∈ g, pyDigit c = false by
      simp [_clean_votes_text_none hsub2]
    obtain ⟨p, u, hu, hpu⟩ := scanStr_some_suffix m t none g hm
    intro c hc
    exact h c (hu c (hsub p u g hpu c hc))

theorem ratingTok_none {el : Node} (h : digitFree el = true) {text : Str}
    (htext : ∀ c ∈ text, pyDigit c = false) : ratingTok el text = none := by
  unfold ratingTok
  have hsel : rating_selectors.findSome? (fun sel => (select_one el sel).bind fun n =>
      let t := getText n [] true
      if t.isEmpty then none else floatTok t) = none := by
    rw [List.findSome?_eq_none_iff]
    intro sel _
    cases hso : select_one el sel with
    | none => rfl
    | some n =>
      have hdf := digitFree_select_one h hso
      have hgt : ∀ c ∈ getText n [] true, pyDigit c = false :=
        getText_digitFree hdf (by simp) true
      show (if (getText n [] true).isEmpty then none else floatTok (getText n [] true)) = none
      split
      · rfl
      · exact floatTok_none hgt
  rw [hsel]
  rw [reSearch_none_of_digitFree matchRating10Here
    (fun _ _ hu => matchRating10Here_none hu) htext]
  rfl

theorem votesStage0_none {el : Node} (h : digitFree el = true) :
    votesStage0 el = none := by
  unfold votesStage0
  have hnv : ∀ n : Node, nvNode el = some n → digitFree n = true := by
    intro n hn
    unfold nvNode at hn
    cases h1 : select_one el selNvName with
    | some m =>
      rw [h1] at hn
      simp only [Option.orElse] at hn
      exact digitFree_select_one h (h1.trans (by injection hn with he; rw [he]))
    | none =>
      rw [h1] at hn
      simp only [Option.orElse] at hn
      cases h2 : select_one el selVoteCount with
      | some m =>
        rw [h2] at hn
        simp only [Option.orElse] at hn
        exact digitFree_select_one h (h2.trans (by injection hn with he; rw [he]))
      | none =>
        rw [h2] at hn
        simp only [Option.orElse] at hn
        exact digitFree_select_one h hn
  cases hnvv : nvNode el with
  | none => rfl
  | some n =>
    have hdf := hnv n hnvv
    show (match attrGet n (chars "data-value") with
      | some v => _to_int v
      | none => _clean_votes_text (getText n [] false)) = none
    cases hattr : attrGet n (chars "data-value") with
    | some v =>
      simp only [hattr]
      exact _to_int_none (digitFree_attr hdf hattr)
    | none =>
      simp only [hattr]
      exact _clean_votes_text_none (getText_digitFree hdf (by simp) false)

theorem votesStage1_none {el : Node} (h : digitFree el = true) :
    votesStage1 el = none := by
  unfold votesStage1
  cases hstrong : select_one el selRatingStrong with
  | none => rfl
  | some strong =>
    have hdf := digitFree_select_one h hstrong
    show (match attrGet strong (chars "title") with
      | some ttl =>
        (match reSearch matchBasedOnHere ttl with
         | some g => some g
         | none => reSearch matchNumUserHere ttl).bind _clean_votes_text
      | none => none) = none
    cases hattr : attrGet strong (chars "title") with
    | none => simp only [hattr]
    | some ttl =>
      simp only [hattr]
      have httl : ∀ c ∈ ttl, pyDigit c = false := digitFree_attr hdf hattr
      have h1 := @bind_clean_none matchBasedOnHere (fun p u g hg => matchBasedOnHere_sub hg) ttl httl
      have h2 := @bind_clean_none matchNumUserHere (fun p u g hg => matchNumUserHere_sub hg) ttl httl
      cases hb : reSearch matchBasedOnHere ttl with
      | some g =>
        simp only [hb]
        rw [hb] at h1
        exact h1
      | none =>
        simp only [hb]
        exact h2

theorem votesOf_none {el : Node} (h : digitFree el = true) {text : Str}
    (htext : ∀ c ∈ text, pyDigit c = false) : votesOf el text = none := by
  unfold votesOf
  rw [votesStage0_none h, votesStage1_none h]
  rw [@bind_clean_none matchVotesSuffixHere (fun p u g hg => matchVotesSuffixHere_sub hg) text htext]
  rw [reSearch_none_of_digitFree matchGroupedHere
    (fun _ _ hu => matchGroupedHere_none hu) htext]
  rfl

/-- The separator `" "` is digit-free. -/
theorem space_digitFree : ∀ c ∈ chars " ", pyDigit c = false := by decide

theorem extract_Rating_none {el : Node} (h : digitFree el = true) :
    (_extract_from_container el).Rating = none := by
  show (ratingTok el (getText el (chars " ") true)).map NumTok.val = none
  rw [ratingTok_none h (getText_digitFree h space_digitFree true)]
  rfl

theorem extract_Votes_none {el : Node} (h : digitFree el = true) :
    (_extract_from_container el).Votes = none := by
  show votesOf el (getText el (chars " ") true) = none
  exact votesOf_none h (getText_digitFree h space_digitFree true)

/-! ## Claims -/

/-- **C2**: the runtime parser maps "2h 22min" to 142, "142 min" to 142,
the bare numeral "142" to 142, "1h 30m" to the hours-only result 60
("m" does not match the minutes pattern), any string with no digits to
null, and in general — whenever the hour or minute pattern matches —
returns hours×60 + minutes with a computed total of 0 treated as null
rather than zero. -/
theorem C2_runtime_parsing :
    _runtime_to_minutes (chars "2h 22min") = some 142 ∧
    _runtime_to_minutes (chars "142 min") = some 142 ∧
    _runtime_to_minutes (chars "142") = some 142 ∧
    _runtime_to_minutes (chars "1h 30m") = some 60 ∧
    (∀ s : Str, (∀ c ∈ s, pyDigit c = false) → _runtime_to_minutes s = none) ∧
    (∀ s : Str,
      (reSearch matchHHere s).isSome ∨ (reSearch matchMinHere s).isSome →
      _runtime_to_minutes s =
        if 0 < (reSearch matchHHere s).getD 0 * 60 + (reSearch matchMinHere s).getD 0 then
          some ((reSearch matchHHere s).getD 0 * 60 + (reSearch matchMinHere s).getD 0)
        else none) := by
  refine ⟨by decide, by decide, by decide, by decide, ?_, ?_⟩
  · intro s hs
    unfold _runtime_to_minutes
    by_cases he : s.isEmpty
    · simp [he]
    · simp only [he, if_false]
      rw [reSearch_none_of_digitFree matchMinHere (fun _ _ hu => matchMinHere_none hu) hs,
        reSearch_none_of_digitFree matchHHere (fun _ _ hu => matchHHere_none hu) hs,
        reSearch_none_of_digitFree matchBare23Here (fun _ _ hu => matchBare23Here_none hu) hs]
      simp
  · intro s hor
    unfold _runtime_to_minutes
    have hne : s.isEmpty = false := by
      cases s with
      | nil =>
        rcases hor with h | h <;> simp [reSearch, scanStr, matchHHere, matchMinHere] at h
      | cons _ _ => rfl
    simp only [hne, if_false, Bool.false_eq_true]
    cases hmm2 : reSearch matchMinHere s with
    | some m => simp [hmm2]
    | none =>
      cases hmh : reSearch matchHHere s with
      | none => rcases hor with h | h <;> simp [hmh, hmm2] at h
      | some hh => simp [hmm2, hmh]

/-- Witness for C2: the no-digit case and the hour-pattern case with a
computed total of zero (which yields null, not zero). -/
theorem C2_witness :
    _runtime_to_minutes (chars "abc") = none ∧
    _runtime_to_minutes (chars "0h min x") =
      (if 0 < (reSearch matchHHere (chars "0h min x")).getD 0 * 60 +
          (reSearch matchMinHere (chars "0h min x")).getD 0 then
        some ((reSearch matchHHere (chars "0h min x")).getD 0 * 60 +
          (reSearch matchMinHere (chars "0h min x")).getD 0)
      else none) :=
  ⟨C2_runtime_parsing.2.2.2.2.1 (chars "abc") (by decide),
   C2_runtime_parsing.2.2.2.2.2 (chars "0h min x") (Or.inl (by decide))⟩

def ratingItemA : Node := .elem (chars "div") [] [.text (chars "An item rated 9.3/10 by users")]

def ratingItemB : Node :=
  .elem (chars "div") [] [.elem (chars "strong") [] [.text (chars "8,7")]]

/-- **C3**: rating extraction yields 9.3 for an item whose text contains
"9.3/10" (no selector hit), 8.7 for a selector hit whose text is "8,7"
(comma accepted as decimal separator, first numeric token taken), and
null for an item containing no numeral at all. -/
theorem C3_rating_parsing :
    (_extract_from_container ratingItemA).Rating = some (93 / 10 : Rat) ∧
    (_extract_from_container ratingItemB).Rating = some (87 / 10 : Rat) ∧
    (∀ el : Node, digitFree el = true → (_extract_from_container el).Rating = none) := by
  refine ⟨?_, ?_, fun el h => extract_Rating_none h⟩
  · show (ratingTok ratingItemA (getText ratingItemA (chars " ") true)).map NumTok.val =
      some (93 / 10 : Rat)
    have h : ratingTok ratingItemA (getText ratingItemA (chars " ") true) =
        some ⟨false, 9, 3, 1⟩ := by decide
    rw [h]
    simp only [Option.map]
    norm_num [NumTok.val]
  · show (ratingTok ratingItemB (getText ratingItemB (chars " ") true)).map NumTok.val =
      some (87 / 10 : Rat)
    have h : ratingTok ratingItemB (getText ratingItemB (chars " ") true) =
        some ⟨false, 8, 7, 1⟩ := by decide
    rw [h]
    simp only [Option.map]
    norm_num [NumTok.val]

def ratingItemC : Node := .elem (chars "div") [] [.text (chars "no numerals here")]

/-- Witness for C3: a concrete numeral-free item resolves to a null
rating. -/
theorem C3_witness : (_extract_from_container ratingItemC).Rating = none :=
  C3_rating_parsing.2.2 ratingItemC (by decide)

def votesItemA : Node :=
  .elem (chars "div") []
    [.elem (chars "span") [attr "name" "nv", attr "data-value" "1234567"] [.text (chars "1.2M")],
     .text (chars "250,000 votes")]

def votesItemB : Node :=
  .elem (chars "tr") []
    [.elem (chars "td") [attr "class" "ratingColumn imdbRating"]
      [.elem (chars "strong") [attr "title" "9.2 based on 1,600,000 user ratings"]
        [.text (chars "9.2")]],
     .text (chars "250,000 votes")]

def votesItemC : Node := .elem (chars "div") [] [.text (chars "great 250,000 votes")]

/-- **C4**: votes extraction resolves, in cascade order: a vote-count
node's `data-value="1234567"` to 1234567 (even when "votes" text is also
present), a rating node's `title` attribute "9.2 based on 1,600,000 user
ratings" to 1600000, item text containing "250,000 votes" to 250000, and
null when no numeric cue exists anywhere in the item. -/
theorem C4_votes_parsing :
    (_extract_from_container votesItemA).Votes = some 1234567 ∧
    (_extract_from_container votesItemB).Votes = some 1600000 ∧
    (_extract_from_container votesItemC).Votes = some 250000 ∧
    (∀ el : Node, digitFree el = true → (_extract_from_container el).Votes = none) :=
  ⟨by decide, by decide, by decide, fun el h => extract_Votes_none h⟩

def votesItemD : Node :=
  .elem (chars "div") []
    [.elem (chars "span") [attr "name" "nv"] [.text (chars "N/A")],
     .text (chars "no votes, none.")]

/-- Witness for C4: a concrete item with no numeric cue resolves to null
votes. -/
theorem C4_witness : (_extract_from_container votesItemD).Votes = none :=
  C4_votes_parsing.2.2.2 votesItemD (by decide)

/-! ## The locator and the dataset pipeline -/

/-- The candidate pool: every structural pattern's matches, in pattern
order, each pattern's matches in document order. -/
def containerPool (soup : Node) : List Node := container_selectors.flatMap (select soup)

/-- All element descendants of the document, in document order. -/
def docElems (soup : Node) : List Node := (descCtx soup).map (fun p => p.2)

theorem foldl_pool (f : SelGroup → List Node) :
    ∀ (sels : List SelGroup) (acc : List Node),
      sels.foldl (fun acc sel =>
        let nodes := f sel
        if nodes.isEmpty then acc else acc ++ nodes) acc = acc ++ sels.flatMap f := by
  intro sels
  induction sels with
  | nil => intro acc; simp
  | cons s ss ih =>
    intro acc
    rw [List.foldl_cons, ih]
    by_cases he : (f s).isEmpty
    · have h0 : f s = [] := by simpa using he
      simp [he, h0]
    · simp [he]

theorem gather_eq (soup : Node) (h : containerPool soup ≠ []) :
    _gather_candidate_containers soup = dedupByKey (fun n => n) (containerPool soup) := by
  unfold _gather_candidate_containers
  rw [foldl_pool (select soup) container_selectors []]
  simp only [List.nil_append]
  have h2 : (container_selectors.flatMap (select soup)).isEmpty = false := by
    cases hp : (container_selectors.flatMap (select soup)).isEmpty
    · rfl
    · exact absurd (List.isEmpty_iff.mp hp) h
  rw [h2]
  rfl

theorem gather_nodup (soup : Node) : (_gather_candidate_containers soup).Nodup := by
  unfold _gather_candidate_containers
  exact dedupById_nodup _

theorem scrapeDataset_snd (soup : Node) :
    (scrapeDataset soup).map Prod.snd = dedupByKey recKey (preRows soup) := by
  unfold scrapeDataset
  exact List.map_snd_zip _ _ (by simp [List.length_range'])

/-- **C7**: for every produced dataset of length N, the `No.` column is
the dense 1-based sequence 1..N in row order, assigned after
de-duplication. -/
theorem C7_numbering : ∀ soup : Node,
    (scrapeDataset soup).map Prod.fst = List.range' 1 (scrapeDataset soup).length := by
  intro soup
  have hlen : (scrapeDataset soup).length = (dedupByKey recKey (preRows soup)).length := by
    unfold scrapeDataset
    rw [List.length_zip]
    simp [List.length_range']
  show ((List.range' 1 (dedupByKey recKey (preRows soup)).length).zip
      (dedupByKey recKey (preRows soup))).map Prod.fst = _
  rw [List.map_fst_zip _ _ (by simp [List.length_range'])]
  rw [hlen]

/-- **C9**: every row of the final dataset has a non-empty title — an
item whose title resolves to nothing is excluded, whatever its other
fields resolved to. -/
theorem C9_title_filter : ∀ soup : Node,
    ((scrapeDataset soup).map Prod.snd).all (fun r => !r.Title.isEmpty) = true := by
  intro soup
  rw [scrapeDataset_snd, List.all_eq_true]
  intro r hr
  have hpre : r ∈ preRows soup := (dedupByKey_sublist recKey (preRows soup)).subset hr
  simp only [preRows] at hpre
  split at hpre
  · exact (List.mem_filter.mp hpre).2
  · exact (List.mem_filter.mp hpre).2

/-- **C6**: no two dataset rows share the same (lowercased title, year)
pair; the rows are a subsequence of the pre-de-duplication rows
(row order mirrors discovery order), and each kept row is the
first-encountered row with its key.  (The source keys on the stripped,
lowercased title and the stringified year; lowercase-equal titles are
also stripped-lowercase-equal, and the year stringification is injective
with `None ↦ ""`, so the claim's key follows.) -/
theorem C6_dedup : ∀ soup : Node,
    ((scrapeDataset soup).map (fun p => (pyLowerStr p.2.Title, p.2.Year))).Nodup ∧
    ((scrapeDataset soup).map Prod.snd).Sublist (preRows soup) ∧
    ∀ r ∈ (scrapeDataset soup).map Prod.snd,
      (preRows soup).find? (fun x => decide (recKey x = recKey r)) = some r := by
  intro soup
  refine ⟨?_, ?_, ?_⟩
  · have h1 : (scrapeDataset soup).map (fun p => (pyLowerStr p.2.Title, p.2.Year)) =
        ((scrapeDataset soup).map Prod.snd).map (fun r => (pyLowerStr r.Title, r.Year)) := by
      rw [List.map_map]
      rfl
    rw [h1, scrapeDataset_snd]
    have h2 := dedupByKey_nodup recKey (preRows soup)
    have h3 : (dedupByKey recKey (preRows soup)).map recKey =
        ((dedupByKey recKey (preRows soup)).map (fun r => (pyLowerStr r.Title, r.Year))).map
          (fun q => (pyStrip q.1, q.2)) := by
      rw [List.map_map]
      apply List.map_congr_left
      intro r _
      show recKey r = (pyStrip (pyLowerStr r.Title), r.Year)
      rw [recKey, pyStrip_pyLowerStr]
    rw [h3] at h2
    exact List.Nodup.of_map _ h2
  · rw [scrapeDataset_snd]
    exact dedupByKey_sublist _ _
  · intro r hr
    rw [scrapeDataset_snd] at hr
    exact dedupByKey_find recKey (preRows soup) r hr

/-- **C8**: the container locator evaluates all structural patterns
independently (no short-circuit: every pattern's every match reaches the
result pool), each pattern contributes its matches in document order
(`select` is a subsequence of the document-order element list), the pool
is the concatenation of the patterns' matches, and it is de-duplicated by
structural identity keeping first occurrences — so an item matched under
two patterns appears exactly once. -/
theorem C8_locator : ∀ soup : Node,
    (∀ g ∈ container_selectors, (select soup g).Sublist (docElems soup)) ∧
    (containerPool soup ≠ [] →
      _gather_candidate_containers soup = dedupByKey (fun n => n) (containerPool soup) ∧
      (_gather_candidate_containers soup).Sublist (containerPool soup)) ∧
    (∀ g ∈ container_selectors, ∀ n ∈ select soup g,
      n ∈ _gather_candidate_containers soup) ∧
    (_gather_candidate_containers soup).Nodup := by
  intro soup
  refine ⟨?_, ?_, ?_, gather_nodup soup⟩
  · intro g _
    unfold select docElems
    exact (List.filter_sublist _).map _
  · intro h
    refine ⟨gather_eq soup h, ?_⟩
    rw [gather_eq soup h]
    exact dedupByKey_sublist _ _
  · intro g hg n hn
    have hpool : n ∈ containerPool soup := by
      unfold containerPool
      rw [List.mem_flatMap]
      exact ⟨g, hg, hn⟩
    rw [gather_eq soup (List.ne_nil_of_mem hpool)]
    exact dedupById_mem _ n hpool

def dupItem (t : String) : Node :=
  .elem (chars "div") [attr "class" "lister-item"]
    [.elem (chars "h3") [attr "class" "lister-item-header"]
      [.elem (chars "a") [attr "href" "/title/tt0000001/"] [.text (chars t)]],
     .elem (chars "span") [attr "class" "lister-item-year"] [.text (chars "(1999)")]]

/-- A document with two structurally distinct items carrying the same
(lowercased) title and year, plus a third distinct item. -/
def dupDoc : Node :=
  .elem (chars "[document]") []
    [.elem (chars "div") [attr "class" "lister-list"]
      [dupItem "Movie X", dupItem "movie x", dupItem "Movie Y"]]

def recMovieX : Rec := ⟨chars "Movie X", some 1999, none, [], none, none⟩

/-- Witness for C6, on a document with a duplicated (title, year): the
kept row for the key is the first-encountered record. -/
theorem C6_witness :
    ((scrapeDataset dupDoc).map (fun p => (pyLowerStr p.2.Title, p.2.Year))).Nodup ∧
    ((scrapeDataset dupDoc).map Prod.snd).Sublist (preRows dupDoc) ∧
    (preRows dupDoc).find? (fun x => decide (recKey x = recKey recMovieX)) = some recMovieX :=
  ⟨(C6_dedup dupDoc).1, (C6_dedup dupDoc).2.1,
   (C6_dedup dupDoc).2.2 recMovieX (by decide)⟩

def innerItem : Node := .elem (chars "div") [attr "class" "list_item"] [.text (chars "x")]

/-- A document whose single item matches two different structural
patterns (`div.list_item` and `div.section .list_item`). -/
def twoPatternDoc : Node :=
  .elem (chars "[document]") [] [.elem (chars "div") [attr "class" "section"] [innerItem]]

/-- Witness for C8: the item matched under two patterns appears in the
pool twice but in the located containers exactly once. -/
theorem C8_witness :
    innerItem ∈ select twoPatternDoc selListItem ∧
    innerItem ∈ select twoPatternDoc selSectionListItem ∧
    _gather_candidate_containers twoPatternDoc =
      dedupByKey (fun n => n) (containerPool twoPatternDoc) ∧
    innerItem ∈ _gather_candidate_containers twoPatternDoc ∧
    (_gather_candidate_containers twoPatternDoc).Nodup :=
  ⟨by decide, by decide,
   ((C8_locator twoPatternDoc).2.1 (by decide)).1,
   (C8_locator twoPatternDoc).2.2.1 selSectionListItem (by decide) innerItem (by decide),
   (C8_locator twoPatternDoc).2.2.2⟩

/-! ## C10: the bare-number duration fallback -/

def digitOpt : Option Char → Bool
  | some p => pyDigit p
  | none => false

/-- Every maximal digit run of the string (with `prev` the character just
before it) has length at least 4 — "the only numeric tokens are 4 or more
digits long". -/
def runsOK : Option Char → Str → Bool
  | _, [] => true
  | prev, c :: t =>
    if pyDigit c ∧ digitOpt prev = false then
      decide (4 ≤ ((c :: t).takeWhile pyDigit).length) && runsOK (some c) t
    else runsOK (some c) t

theorem runsOK_step {prev : Option Char} {c : Char} {t : Str}
    (h : runsOK (prev) (c :: t) = true) : runsOK (some c) t = true := by
  rw [runsOK] at h
  split at h
  · exact (Bool.and_eq_true _ _ |>.mp h).2
  · exact h

theorem runsOK_head {prev : Option Char} {c : Char} {t : Str}
    (h : runsOK prev (c :: t) = true) (hc : pyDigit c = true)
    (hp : digitOpt prev = false) : 4 ≤ ((c :: t).takeWhile pyDigit).length := by
  rw [runsOK] at h
  rw [if_pos ⟨hc, hp⟩] at h
  have := (Bool.and_eq_true _ _ |>.mp h).1
  simpa using this

theorem digitOpt_false_of_nonWord {prev : Option Char} (h : nonWordOpt prev = true) :
    digitOpt prev = false := by
  cases prev with
  | none => rfl
  | some c =>
    simp only [nonWordOpt, Bool.not_eq_true'] at h
    simp only [pyWord, Bool.or_eq_false_iff, Bool.and_eq_false_iff, decide_eq_false_iff_not,
      not_le] at h
    simp only [digitOpt, pyDigit, Bool.and_eq_false_iff, decide_eq_false_iff_not, not_le]
    omega

theorem not_pyWord_of_digit {c : Char} (h : pyDigit c = true) : pyWord c = true := by
  simp only [pyDigit, Bool.and_eq_true, decide_eq_true_eq] at h
  simp only [pyWord, Bool.or_eq_true, Bool.and_eq_true, decide_eq_true_eq]
  omega

theorem takeWhile_four {p : Char → Bool} {l : Str} (h : 4 ≤ (l.takeWhile p).length) :
    ∃ a b c d rest, l = a :: b :: c :: d :: rest ∧
      p a = true ∧ p b = true ∧ p c = true ∧ p d = true := by
  match l with
  | [] => simp [List.takeWhile] at h
  | a :: l1 =>
    cases hpa : p a with
    | false => rw [List.takeWhile_cons, hpa] at h; simp at h
    | true =>
      rw [List.takeWhile_cons, hpa] at h
      simp only [if_true, List.length_cons] at h
      have h1 : 4 ≤ (l1.takeWhile p).length + 1 := h
      match l1 with
      | [] => simp [List.takeWhile] at h1
      | b :: l2 =>
        cases hpb : p b with
        | false => rw [List.takeWhile_cons, hpb] at h1; simp at h1
        | true =>
          rw [List.takeWhile_cons, hpb] at h1
          simp only [if_true, List.length_cons] at h1
          match l2 with
          | [] => simp [List.takeWhile] at h1
          | c :: l3 =>
            cases hpc : p c with
            | false => rw [List.takeWhile_cons, hpc] at h1; simp at h1
            | true =>
              rw [List.takeWhile_cons, hpc] at h1
              simp only [if_true, List.length_cons] at h1
              match l3 with
              | [] => simp [List.takeWhile] at h1
              | d :: l4 =>
                cases hpd : p d with
                | false => rw [List.takeWhile_cons, hpd] at h1; simp at h1
                | true => exact ⟨a, b, c, d, l4, rfl, hpa, hpb, hpc, hpd⟩

theorem scanStr_some_P {α : Type} (m : Option Char → Str → Option α)
    (P : Option Char → Str → Prop)
    (hstep : ∀ (c : Char) (t : Str) (prev : Option Char), P prev (c :: t) → P (some c) t) :
    ∀ (s : Str) (prev : Option Char) (r : α), P prev s → scanStr m prev s = some r →
      ∃ p t, P p t ∧ m p t = some r := by
  intro s
  induction s with
  | nil =>
    intro prev r hp h
    rw [scanStr] at h
    split at h
    · exact ⟨prev, [], hp, by rw [‹m prev [] = some _›, h]⟩
    · exact absurd h (by simp)
  | cons c rest ih =>
    intro prev r hp h
    rw [scanStr] at h
    split at h
    · exact ⟨prev, c :: rest, hp, by rw [‹m prev (c :: rest) = some _›, h]⟩
    · exact ih (some c) r (hstep c rest prev hp) h

theorem matchBare23Here_shape {prev : Option Char} {s g : Str}
    (h : matchBare23Here prev s = some g) :
    (g.length = 2 ∨ g.length = 3) ∧ g.all pyDigit = true := by
  unfold matchBare23Here at h
  split at h
  · split at h
    · rename_i a b c rest
      split at h
      · rename_i hcond
        have hg : [a, b, c] = g := by injection h
        rw [← hg]
        refine ⟨Or.inr rfl, ?_⟩
        simp [hcond.1, hcond.2.1, hcond.2.2.1]
      · split at h
        · rename_i hcond
          have hg : [a, b] = g := by injection h
          rw [← hg]
          refine ⟨Or.inl rfl, ?_⟩
          simp [hcond.1, hcond.2.1]
        · exact absurd h (by simp)
    · rename_i a b
      split at h
      · rename_i hcond
        have hg : [a, b] = g := by injection h
        rw [← hg]
        refine ⟨Or.inl rfl, ?_⟩
        simp [hcond.1, hcond.2]
      · exact absurd h (by simp)
    · exact absurd h (by simp)
  · exact absurd h (by simp)

theorem matchBare23Here_none_runs {prev : Option Char} {s : Str}
    (h : runsOK prev s = true) : matchBare23Here prev s = none := by
  unfold matchBare23Here
  cases hb : nonWordOpt prev with
  | false => simp
  | true =>
    rw [if_pos rfl]
    match s, h with
    | [], _ => rfl
    | [a], _ => rfl
    | [a, b], h =>
      cases hpa : pyDigit a with
      | false => simp [hpa]
      | true =>
        have h4 := runsOK_head h hpa (digitOpt_false_of_nonWord hb)
        exfalso
        have hle : ([a, b].takeWhile pyDigit).length ≤ 2 := by
          have hsub := @List.takeWhile_sublist Char [a, b] pyDigit
          simpa using hsub.length_le
        omega
    | a :: b :: c :: rest, h =>
      cases hpa : pyDigit a with
      | false => simp [hpa]
      | true =>
        have h4 := runsOK_head h hpa (digitOpt_false_of_nonWord hb)
        obtain ⟨a2, b2, c2, d2, rest2, heq, ha2, hb2, hc2, hd2⟩ := takeWhile_four h4
        simp only [List.cons.injEq] at heq
        obtain ⟨e1, e2, e3, e4⟩ := heq
        subst e1
        subst e2
        subst e3
        rw [e4]
        simp [nonWordOpt, not_pyWord_of_digit hd2, not_pyWord_of_digit hc2]

theorem altBareMin_none_runs {prev : Option Char} {s : Str}
    (h : runsOK prev s = true) : altBareMin prev s = none := by
  unfold altBareMin
  cases hb : nonWordOpt prev with
  | false => simp
  | true =>
    rw [if_pos rfl]
    match s, h with
    | [], _ => rfl
    | [a], _ => rfl
    | [a, b], h => rfl
    | a :: b :: c :: rest, h =>
      cases hpa : pyDigit a with
      | false => simp [hpa]
      | true =>
        have h4 := runsOK_head h hpa (digitOpt_false_of_nonWord hb)
        obtain ⟨a2, b2, c2, d2, rest2, heq, ha2, hb2, hc2, hd2⟩ := takeWhile_four h4
        simp only [List.cons.injEq] at heq
        obtain ⟨e1, e2, e3, e4⟩ := heq
        subst e1
        subst e2
        subst e3
        rw [e4]
        simp [nonWordOpt, not_pyWord_of_digit hd2, not_pyWord_of_digit hc2, hc2]

theorem altBareNoVotes_none_runs {prev : Option Char} {s : Str}
    (h : runsOK prev s = true) : altBareNoVotes prev s = none := by
  unfold altBareNoVotes
  cases hb : nonWordOpt prev with
  | false => simp
  | true =>
    rw [if_pos rfl]
    match s, h with
    | [], _ => rfl
    | [a], _ => rfl
    | [a, b], h =>
      cases hpa : pyDigit a with
      | false => simp [hpa]
      | true =>
        have h4 := runsOK_head h hpa (digitOpt_false_of_nonWord hb)
        exfalso
        have hle : ([a, b].takeWhile pyDigit).length ≤ 2 := by
          have hsub := @List.takeWhile_sublist Char [a, b] pyDigit
          simpa using hsub.length_le
        omega
    | a :: b :: c :: rest, h =>
      cases hpa : pyDigit a with
      | false => simp [hpa]
      | true =>
        have h4 := runsOK_head h hpa (digitOpt_false_of_nonWord hb)
        obtain ⟨a2, b2, c2, d2, rest2, heq, ha2, hb2, hc2, hd2⟩ := takeWhile_four h4
        simp only [List.cons.injEq] at heq
        obtain ⟨e1, e2, e3, e4⟩ := heq
        subst e1
        subst e2
        subst e3
        rw [e4]
        simp [nonWordOpt, not_pyWord_of_digit hd2, not_pyWord_of_digit hc2, hc2]

theorem matchDurHere_alt_runs {prev : Option Char} {s : Str} (h : runsOK prev s = true)
    {a : DurAlt} {g : Str} (hm : matchDurHere prev s = some (a, g)) :
    a = DurAlt.hMin ∨ a = DurAlt.nMin := by
  unfold matchDurHere at hm
  cases h1 : altHMin s with
  | some g1 =>
    rw [h1] at hm
    simp only [Option.some.injEq, Prod.mk.injEq] at hm
    exact Or.inl hm.1.symm
  | none =>
    rw [h1] at hm
    cases h2 : altNMin s with
    | some g2 =>
      rw [h2] at hm
      simp only [Option.some.injEq, Prod.mk.injEq] at hm
      exact Or.inr hm.1.symm
    | none =>
      rw [h2, altBareMin_none_runs h, altBareNoVotes_none_runs h] at hm
      exact absurd hm (by simp)

/-- **C10**: the bare-numeral duration fallback — in the runtime parser
and in the whole-text regex — only accepts standalone 2-to-3-digit
tokens delimited by word boundaries; on any text whose numeric tokens
all have 4 or more digits (such as a year "1999"), the bare-number
scanner finds nothing, and the whole-text duration regex can only match
through its unit-bearing (`h`/`min`) alternatives. -/
theorem C10_bare_fallback :
    (∀ s g : Str, reSearch matchBare23Here s = some g →
      (g.length = 2 ∨ g.length = 3) ∧ g.all pyDigit = true) ∧
    (∀ s : Str, runsOK none s = true → reSearch matchBare23Here s = none) ∧
    (∀ (s : Str) (a : DurAlt) (g : Str), runsOK none s = true →
      reSearch matchDurHere s = some (a, g) → a = DurAlt.hMin ∨ a = DurAlt.nMin) := by
  refine ⟨?_, ?_, ?_⟩
  · intro s g h
    obtain ⟨p, t, hpt⟩ := scanStr_some matchBare23Here s none g h
    exact matchBare23Here_shape hpt
  · intro s h
    exact scanStr_none matchBare23Here (fun prev t => runsOK prev t = true)
      (fun c t prev hp => runsOK_step hp)
      (fun prev t hp => matchBare23Here_none_runs hp) s none h
  · intro s a g hrun h
    obtain ⟨p, t, hpt, hm⟩ := scanStr_some_P matchDurHere (fun prev t => runsOK prev t = true)
      (fun c t prev hp => runsOK_step hp) s none (a, g) hrun h
    exact matchDurHere_alt_runs hpt hm

/-- Witness for C10: on "in 1999 only" (whose only numeric token has four
digits) the bare scanner finds nothing; on "1999 min x" the whole-text
regex matches through the `min`-bearing alternative. -/
theorem C10_witness :
    reSearch matchBare23Here (chars "in 1999 only") = none ∧
    (DurAlt.nMin = DurAlt.hMin ∨ DurAlt.nMin = DurAlt.nMin) :=
  ⟨C10_bare_fallback.2.1 (chars "in 1999 only") (by decide),
   C10_bare_fallback.2.2 (chars "1999 min x") DurAlt.nMin (chars "1999 min") (by decide)
     (by decide)⟩

/-! ## C1: fetch failures -/

/-- The fetch outcomes on which `_get_soup` raises: `requests` errors and
`raise_for_status()` statuses (4xx/5xx). -/
def fetchRaises : FetchResult → Bool
  | .response st _ => decide (400 ≤ st ∧ st < 600)
  | .netError => true
  | .timeout => true

/-- **C1** (counterexample): on a 404 response the extraction does *not*
return an empty dataset — `_get_soup`'s `raise_for_status()` raises and
the exception propagates out of `scrape_imdb_generic` (the surrounding
UI catches it and shows an error message). -/
theorem C1_counterexample :
    scrape_imdb_generic (.response 404 demoDoc) = .error (.httpError 404) ∧
    ∀ rows, scrape_imdb_generic (.response 404 demoDoc) ≠ .ok rows := by
  have hbase : scrape_imdb_generic (.response 404 demoDoc) = .error (.httpError 404) := by
    show (match (if 400 ≤ 404 ∧ 404 < 600 then Except.error (PyErr.httpError 404)
        else Except.ok demoDoc) with
      | Except.error e => Except.error e
      | Except.ok soup => Except.ok (scrapeDataset soup)) = Except.error (PyErr.httpError 404)
    rw [if_pos (by omega)]
  exact ⟨hbase, fun rows h => Except.noConfusion (hbase ▸ h)⟩

/-- **C1** (amended): for every fetch that fails with a network error, a
timeout, or a 4xx/5xx status, `scrape_imdb_generic` propagates the
failure as an exception — no dataset, partial or otherwise, is
produced.  (3xx statuses do not raise: `raise_for_status()` only raises
on 4xx/5xx.) -/
theorem C1_fetch_failure : ∀ f : FetchResult, fetchRaises f = true →
    ∃ e, scrape_imdb_generic f = .error e := by
  intro f h
  cases f with
  | response st doc =>
    simp only [fetchRaises, decide_eq_true_eq] at h
    refine ⟨.httpError st, ?_⟩
    show (match (if 400 ≤ st ∧ st < 600 then Except.error (PyErr.httpError st)
        else Except.ok doc) with
      | Except.error e => Except.error e
      | Except.ok soup => Except.ok (scrapeDataset soup)) = Except.error (PyErr.httpError st)
    rw [if_pos h]
  | netError => exact ⟨.connectionError, rfl⟩
  | timeout => exact ⟨.timeoutError, rfl⟩

/-- Witness for C1: a concrete 500 response raises. -/
theorem C1_witness :
    fetchRaises (.response 500 demoDoc) = true ∧
    ∃ e, scrape_imdb_generic (.response 500 demoDoc) = .error e :=
  ⟨by decide, C1_fetch_failure (.response 500 demoDoc) (by decide)⟩

/-! ## C5: the Age field -/

/-- An age-threshold token: one to three digits followed by `+`. -/
def isDigitPlusTok (s : Str) : Bool :=
  let ds := s.takeWhile pyDigit
  !ds.isEmpty && decide (ds.length ≤ 3) && decide (s = ds ++ ['+'])

/-- One or two digits. -/
def isPGTail (ds : Str) : Bool :=
  (decide (ds.length = 1) || decide (ds.length = 2)) && ds.all pyDigit

/-- `PG-?\d{1,2}` after uppercasing: `PG`, an optional hyphen, then one or
two digits. -/
def isPGNum (s : Str) : Bool :=
  match s with
  | p :: q :: rest =>
    decide (p = 'P') && decide (q = 'G') &&
      isPGTail (if rest.head? = some '-' then rest.tail else rest)
  | _ => false

/-- The certification tokens the code can actually produce: the claim's
closed set plus the hyphen-less variants `TVMA`, `TV14`, `PGn` that
`TV-?MA`, `TV-?14`, `PG-?\d{1,2}` also accept. -/
def certForm (s : Str) : Bool :=
  decide (s = chars "G") || decide (s = chars "PG") || decide (s = chars "R") ||
  decide (s = chars "NC-17") || decide (s = chars "TV-MA") || decide (s = chars "TVMA") ||
  decide (s = chars "TV-14") || decide (s = chars "TV14") || isPGNum s

/-- The claim's closed set, as stated: {G, PG, PG-n, R, NC-17, TV-MA,
TV-14} or a digit-plus-plus token. -/
def claimedAgeForm (s : Str) : Bool :=
  decide (s = chars "G") || decide (s = chars "PG") || decide (s = chars "R") ||
  decide (s = chars "NC-17") || decide (s = chars "TV-MA") || decide (s = chars "TV-14") ||
  (match s with
   | 'P' :: 'G' :: '-' :: ds => !ds.isEmpty && ds.all pyDigit
   | _ => false) ||
  isDigitPlusTok s

theorem takeWhile_append_plus {ds : Str} (h : ∀ c ∈ ds, pyDigit c = true) :
    (ds ++ ['+']).takeWhile pyDigit = ds := by
  induction ds with
  | nil => decide
  | cons c rest ih =>
    rw [List.cons_append, List.takeWhile_cons, h c (List.mem_cons_self _ _)]
    simp only [if_true]
    rw [ih (fun d hd => h d (List.mem_cons_of_mem _ hd))]

theorem matchPlusHere_shape {prev : Option Char} {t g : Str}
    (h : matchPlusHere prev t = some g) : isDigitPlusTok g = true := by
  simp only [matchPlusHere] at h
  split at h
  · rename_i hlen
    split at h
    · have hg : t.takeWhile pyDigit ++ ['+'] = g := by injection h
      have hall : ∀ c ∈ t.takeWhile pyDigit, pyDigit c = true :=
        fun c hc => List.mem_takeWhile_imp hc
      have hds : (g.takeWhile pyDigit) = t.takeWhile pyDigit := by
        rw [← hg]
        exact takeWhile_append_plus hall
      unfold isDigitPlusTok
      rw [hds]
      simp only [Bool.and_eq_true, decide_eq_true_eq]
      refine ⟨⟨?_, hlen.2⟩, hg.symm⟩
      have h1 := hlen.1
      cases hemp : (t.takeWhile pyDigit).isEmpty
      · simp
      · rw [List.isEmpty_iff] at hemp
        rw [hemp] at h1
        simp at h1
    · exact absurd h (by simp)
  · exact absurd h (by simp)

theorem pyUpperStr_digits {ds : Str} (h : ds.all pyDigit = true) : pyUpperStr ds = ds := by
  unfold pyUpperStr
  induction ds with
  | nil => rfl
  | cons c rest ih =>
    rw [List.all_cons, Bool.and_eq_true] at h
    rw [List.map_cons, pyUpper_digit h.1, ih h.2]

theorem digits12Bdry_shape {r ds : Str} (h : digits12Bdry r = some ds) :
    (ds.length = 1 ∨ ds.length = 2) ∧ ds.all pyDigit = true := by
  unfold digits12Bdry at h
  split at h
  · rename_i a b rest
    split at h
    · rename_i hcond
      have hg : [a, b] = ds := by injection h
      rw [← hg]
      exact ⟨Or.inr rfl, by simp [hcond.1, hcond.2.1]⟩
    · split at h
      · rename_i hcond
        have hg : [a] = ds := by injection h
        rw [← hg]
        exact ⟨Or.inl rfl, by simp [hcond.1]⟩
      · exact absurd h (by simp)
  · rename_i a
    split at h
    · rename_i hcond
      have hg : [a] = ds := by injection h
      rw [← hg]
      exact ⟨Or.inl rfl, by simp [hcond]⟩
    · exact absurd h (by simp)
  · exact absurd h (by simp)

theorem pyLower_eq_of_nonalpha {c d : Char} (h : pyLower c = d)
    (hd : ¬(97 ≤ d.toNat ∧ d.toNat ≤ 122)) : c = d := by
  by_cases hc : 65 ≤ c.toNat ∧ c.toNat ≤ 90
  · exfalso
    have h1 : d = Char.ofNat (c.toNat + 32) := by rw [← h]; simp [pyLower, hc]
    have h2 : d.toNat = c.toNat + 32 := by rw [h1]; exact char_toNat_ofNat (by omega)
    omega
  · rw [← h]; simp [pyLower, hc]


theorem altPGNum_shape {s g : Str} (h : altPGNum s = some g) :
    certForm (pyUpperStr g) = true := by
  unfold altPGNum at h
  split at h
  · rename_i p q rest
    split at h
    · rename_i hpq
      have hup : pyUpper p = 'P' := by
        rw [pyUpper_of_lower hpq.1 (by decide)]; decide
      have huq : pyUpper q = 'G' := by
        rw [pyUpper_of_lower hpq.2 (by decide)]; decide
      split at h
      · rename_i rest2
        cases hd : digits12Bdry rest2 with
        | none => rw [hd] at h; exact absurd h (by simp)
        | some ds =>
          rw [hd] at h
          simp only [Option.map] at h
          have hg : p :: q :: '-' :: ds = g := by injection h
          obtain ⟨hlen, hdig⟩ := digits12Bdry_shape hd
          rw [← hg]
          have hmap : List.map pyUpper ds = ds := pyUpperStr_digits hdig
          simp only [pyUpperStr, List.map_cons, hup, huq,
            show pyUpper '-' = '-' from by decide, hmap]
          have hpg : isPGNum ('P' :: 'G' :: '-' :: ds) = true := by
            simp only [isPGNum, List.head?, List.tail]
            rcases hlen with h1 | h1 <;> simp [isPGTail, h1, hdig]
          simp [certForm, hpg]
      · cases hd : digits12Bdry rest with
        | none => rw [hd] at h; exact absurd h (by simp)
        | some ds =>
          rw [hd] at h
          simp only [Option.map] at h
          have hg : p :: q :: ds = g := by injection h
          obtain ⟨hlen, hdig⟩ := digits12Bdry_shape hd
          have hdh : ∀ c ∈ ds, pyDigit c = true := by
            intro c hc
            have := List.all_eq_true.mp hdig c hc
            simpa using this
          have hdnh : ¬ (ds.head? = some '-') := by
            cases ds with
            | nil => simp
            | cons a tl =>
              intro hcon
              have ha : a = '-' := by simpa using hcon
              have := hdh a (List.mem_cons_self _ _)
              rw [ha] at this
              exact absurd this (by decide)
          rw [← hg]
          have hmap : List.map pyUpper ds = ds := pyUpperStr_digits hdig
          simp only [pyUpperStr, List.map_cons, hup, huq, hmap]
          have hpg : isPGNum ('P' :: 'G' :: ds) = true := by
            simp only [isPGNum]
            rw [if_neg hdnh]
            rcases hlen with h1 | h1 <;> simp [isPGTail, h1, hdig]
          simp [certForm, hpg]
    · exact absurd h (by simp)
  · exact absurd h (by simp)

theorem altLetter_shape {d : Char} {s g : Str}
    (hd97 : 97 ≤ d.toNat ∧ d.toNat ≤ 122)
    (h : altLetter d s = some g) : pyUpperStr g = [pyUpper d] := by
  unfold altLetter at h
  split at h
  · rename_i c rest
    split at h
    · rename_i hc
      have hg : [c] = g := by injection h
      rw [← hg]
      simp only [pyUpperStr, List.map_cons, List.map_nil]
      rw [pyUpper_of_lower hc.1 hd97]
    · exact absurd h (by simp)
  · exact absurd h (by simp)

theorem altPG_shape {s g : Str} (h : altPG s = some g) :
    pyUpperStr g = chars "PG" := by
  unfold altPG at h
  split at h
  · rename_i p q rest
    split at h
    · rename_i hc
      have hg : [p, q] = g := by injection h
      rw [← hg]
      simp only [pyUpperStr, List.map_cons, List.map_nil]
      rw [pyUpper_of_lower hc.1 (by decide), pyUpper_of_lower hc.2.1 (by decide)]
      decide
    · exact absurd h (by simp)
  · exact absurd h (by simp)

theorem altNC17_shape {s g : Str} (h : altNC17 s = some g) :
    pyUpperStr g = chars "NC-17" := by
  unfold altNC17 at h
  split at h
  · rename_i n c hh o t rest
    split at h
    · rename_i hc
      have hg : [n, c, hh, o, t] = g := by injection h
      rw [← hg]
      simp only [pyUpperStr, List.map_cons, List.map_nil]
      rw [pyUpper_of_lower hc.1 (by decide), pyUpper_of_lower hc.2.1 (by decide),
        hc.2.2.1, hc.2.2.2.1, hc.2.2.2.2.1]
      decide
    · exact absurd h (by simp)
  · exact absurd h (by simp)

theorem altTVMA_shape {s g : Str} (h : altTV 'm' 'a' s = some g) :
    pyUpperStr g = chars "TV-MA" ∨ pyUpperStr g = chars "TVMA" := by
  unfold altTV at h
  split at h
  · rename_i t v rest
    split at h
    · rename_i htv
      have hut : pyUpper t = 'T' := by
        rw [pyUpper_of_lower htv.1 (by decide)]; decide
      have huv : pyUpper v = 'V' := by
        rw [pyUpper_of_lower htv.2 (by decide)]; decide
      split at h
      · rename_i a b rest2
        split at h
        · rename_i hab
          have hg : [t, v, '-', a, b] = g := by injection h
          left
          rw [← hg]
          simp only [pyUpperStr, List.map_cons, List.map_nil, hut, huv]
          rw [pyUpper_of_lower hab.1 (by decide), pyUpper_of_lower hab.2.1 (by decide)]
          decide
        · exact absurd h (by simp)
      · rename_i a b rest2 hno
        split at h
        · rename_i hab
          have hg : [t, v, a, b] = g := by injection h
          right
          rw [← hg]
          simp only [pyUpperStr, List.map_cons, List.map_nil, hut, huv]
          rw [pyUpper_of_lower hab.1 (by decide), pyUpper_of_lower hab.2.1 (by decide)]
          decide
        · exact absurd h (by simp)
      · exact absurd h (by simp)
    · exact absurd h (by simp)
  · exact absurd h (by simp)

theorem altTV14_shape {s g : Str} (h : altTV '1' '4' s = some g) :
    pyUpperStr g = chars "TV-14" ∨ pyUpperStr g = chars "TV14" := by
  unfold altTV at h
  split at h
  · rename_i t v rest
    split at h
    · rename_i htv
      have hut : pyUpper t = 'T' := by
        rw [pyUpper_of_lower htv.1 (by decide)]; decide
      have huv : pyUpper v = 'V' := by
        rw [pyUpper_of_lower htv.2 (by decide)]; decide
      split at h
      · rename_i a b rest2
        split at h
        · rename_i hab
          have hg : [t, v, '-', a, b] = g := by injection h
          have ha : a = '1' := pyLower_eq_of_nonalpha hab.1 (by decide)
          have hb : b = '4' := pyLower_eq_of_nonalpha hab.2.1 (by decide)
          left
          rw [← hg, ha, hb]
          simp only [pyUpperStr, List.map_cons, List.map_nil, hut, huv]
          decide
        · exact absurd h (by simp)
      · rename_i a b rest2 hno
        split at h
        · rename_i hab
          have hg : [t, v, a, b] = g := by injection h
          have ha : a = '1' := pyLower_eq_of_nonalpha hab.1 (by decide)
          have hb : b = '4' := pyLower_eq_of_nonalpha hab.2.1 (by decide)
          right
          rw [← hg, ha, hb]
          simp only [pyUpperStr, List.map_cons, List.map_nil, hut, huv]
          decide
        · exact absurd h (by simp)
      · exact absurd h (by simp)
    · exact absurd h (by simp)
  · exact absurd h (by simp)

theorem matchCertHere_shape {prev : Option Char} {s g : Str}
    (h : matchCertHere prev s = some g) : certForm (pyUpperStr g) = true := by
  unfold matchCertHere at h
  split at h
  · cases h1 : altPGNum s with
    | some g1 =>
      simp only [h1, Option.orElse] at h
      injection h with hg
      rw [← hg]
      exact altPGNum_shape h1
    | none =>
      simp only [h1, Option.orElse] at h
      cases h2 : altLetter 'g' s with
      | some g2 =>
        simp only [h2, Option.orElse] at h
        injection h with hg
        rw [← hg, altLetter_shape (by decide) h2]
        decide
      | none =>
        simp only [h2, Option.orElse] at h
        cases h3 : altPG s with
        | some g3 =>
          simp only [h3, Option.orElse] at h
          injection h with hg
          rw [← hg, altPG_shape h3]
          decide
        | none =>
          simp only [h3, Option.orElse] at h
          cases h4 : altLetter 'r' s with
          | some g4 =>
            simp only [h4, Option.orElse] at h
            injection h with hg
            rw [← hg, altLetter_shape (by decide) h4]
            decide
          | none =>
            simp only [h4, Option.orElse] at h
            cases h5 : altNC17 s with
            | some g5 =>
              simp only [h5, Option.orElse] at h
              injection h with hg
              rw [← hg, altNC17_shape h5]
              decide
            | none =>
              simp only [h5, Option.orElse] at h
              cases h6 : altTV 'm' 'a' s with
              | some g6 =>
                simp only [h6, Option.orElse] at h
                injection h with hg
                rw [← hg]
                rcases altTVMA_shape h6 with h7 | h7 <;> rw [h7] <;> decide
              | none =>
                simp only [h6, Option.orElse] at h
                rcases altTV14_shape h with h7 | h7 <;> rw [h7] <;> decide
  · exact absurd h (by simp)

theorem extract_age_shape {t a : Str} (h : _extract_age t = some a) :
    isDigitPlusTok a = true ∨ certForm a = true := by
  unfold _extract_age at h
  split at h
  · exact absurd h (by simp)
  · cases hp : reSearch matchPlusHere t with
    | some g =>
      simp only [hp] at h
      obtain ⟨p, u, hm⟩ := scanStr_some matchPlusHere t none g hp
      left
      injection h with hg
      rw [← hg]
      exact matchPlusHere_shape hm
    | none =>
      simp only [hp] at h
      cases hc : reSearch matchCertHere t with
      | some g =>
        simp only [hc, Option.map] at h
        obtain ⟨p, u, hm⟩ := scanStr_some matchCertHere t none g hc
        right
        injection h with hg
        rw [← hg]
        exact matchCertHere_shape hm
      | none =>
        simp only [hc, Option.map] at h
        exact absurd h (by simp)

theorem ageOf_shape {el : Node} {text a : Str} (h : ageOf el text = some a) :
    isDigitPlusTok a = true ∨ certForm a = true := by
  simp only [ageOf] at h
  cases hf : findString el (fun t => (reSearch matchCertOrPlusHere t).isSome) with
  | some certStr =>
    simp only [hf] at h
    cases he : _extract_age certStr with
    | some b =>
      simp only [he] at h
      injection h with hb
      rw [← hb]
      exact extract_age_shape he
    | none =>
      simp only [he] at h
      exact extract_age_shape h
  | none =>
    simp only [hf] at h
    exact extract_age_shape h

/-- An item whose only text is `tv14`: the hyphen-less `TV-?14` form. -/
def ageItemTV : Node := .elem (chars "div") [] [.text (chars "tv14")]

/-- An item whose text holds no age-threshold or certification token. -/
def ageItemNone : Node := .elem (chars "div") [] [.text (chars "no classification")]

/-- C5 counterexample: the optional hyphens in `TV-?MA` and `TV-?14` (and
`PG-?\d{1,2}`) admit hyphen-less certificates, so an item whose text is
`tv14` gets Age `TV14`, which lies outside the claim's closed set
{G, PG, PG-n, R, NC-17, TV-MA, TV-14} and is no digit-plus token; the
claim's `null` for unresolved items is also an empty string in the
record. -/
theorem C5_counterexample :
    (_extract_from_container ageItemTV).Age = chars "TV14" ∧
    claimedAgeForm (chars "TV14") = false ∧
    (_extract_from_container ageItemNone).Age = [] := by
  refine ⟨by decide, by decide, by decide⟩

/-- C5 (amended): for every item, the Age field is the empty string or a
digit-plus-plus token or a certification code from the extended closed
set {G, PG, PG-n (hyphen optional), R, NC-17, TV-MA, TVMA, TV-14, TV14},
uppercased. -/
theorem C5_amended (el : Node) :
    (_extract_from_container el).Age = [] ∨
    isDigitPlusTok (_extract_from_container el).Age = true ∨
    certForm (_extract_from_container el).Age = true := by
  have hA : (_extract_from_container el).Age =
      (ageOf el (getText el (chars " ") true)).getD [] := rfl
  rw [hA]
  cases h : ageOf el (getText el (chars " ") true) with
  | none => exact Or.inl rfl
  | some a => exact Or.inr (by simpa using ageOf_shape h)
